import Mathlib

set_option maxRecDepth 10000

namespace Poker

/-!
Shallow embedding of the poker engine of this repository
(src/evaluators.py and src/game_classes.py).  Python dicts become
structures, Python ints become Lean Int (chips, bets, pot) or Nat
(ranks, indices), Python lists become Lean lists, exceptions become
Option, and loops become structural recursions or folds.
-/

/-- Card record mirroring the dicts built by evaluators.create_deck:
a rank string, a suit string and the suit symbol. -/
structure Card where
  rank : String
  suit : String
  symbol : String
deriving DecidableEq

/-- SUITS list from evaluators.py. -/
def SUITS : List String := ["hearts", "diamonds", "clubs", "spades"]

/-- RANKS list from evaluators.py. -/
def RANKS : List String :=
  ["2", "3", "4", "5", "6", "7", "8", "9", "10", "J", "Q", "K", "A"]

/-- SUIT_SYMBOLS mapping from evaluators.py. -/
def SUIT_SYMBOLS (s : String) : String :=
  if s = "hearts" then "♥"
  else if s = "diamonds" then "♦"
  else if s = "clubs" then "♣"
  else if s = "spades" then "♠"
  else ""

/-- RANK_VALUES: position of a rank in RANKS (so "2" has value 0 and "A" value 12). -/
def rank_value (r : String) : Nat := RANKS.indexOf r

/-- Python set(...) in iteration order: the list of first occurrences. -/
def first_occs {α : Type} [DecidableEq α] (l : List α) : List α :=
  l.foldl (fun acc x => if x ∈ acc then acc else acc ++ [x]) []

/-- Insertion step of an insertion sort parameterised by a Boolean comparison. -/
def insert_le {α : Type} (le : α → α → Bool) (x : α) : List α → List α
  | [] => [x]
  | y :: ys => if le x y then x :: y :: ys else y :: insert_le le x ys

/-- Insertion sort parameterised by a Boolean comparison; stands in for Python sorted
(in every use below the sort keys are distinct or equal as values, so any stable or
unstable sort agrees with Python). -/
def sort_by {α : Type} (le : α → α → Bool) (l : List α) : List α :=
  l.foldr (insert_le le) []

/-- Python sorted(l) on Nat values (ascending). -/
def sort_asc (l : List Nat) : List Nat := sort_by (fun a b => decide (a ≤ b)) l

/-- Python sorted(l, reverse=True) on Nat values (descending). -/
def sort_desc (l : List Nat) : List Nat := sort_by (fun a b => decide (b ≤ a)) l

/-- Python list comparison a < b (lexicographic, shorter prefix is smaller). -/
def py_list_lt : List Nat → List Nat → Bool
  | [], [] => false
  | [], _ :: _ => true
  | _ :: _, [] => false
  | a :: as_, b :: bs => if a < b then true else if b < a then false else py_list_lt as_ bs

/-- Python tuple comparison (r0, r1) > (b0, b1) as used in HandEvaluator.best_hand. -/
def py_pair_gt (x y : Nat × List Nat) : Bool :=
  decide (y.1 < x.1) || (decide (x.1 = y.1) && py_list_lt y.2 x.2)

/-- HandEvaluator.card_value. -/
def card_value (c : Card) : Nat := rank_value c.rank

/-- HandEvaluator.is_flush: all cards share one suit. -/
def is_flush (cards : List Card) : Bool :=
  (first_occs (cards.map (fun c => c.suit))).length == 1

/-- HandEvaluator.is_straight; the Python pair (False, None) / (True, high)
becomes none / some high. -/
def is_straight (cards : List Card) : Option Nat :=
  let values := sort_asc (first_occs (cards.map card_value))
  if values.length ≠ 5 then none
  else if values.getLastD 0 - values.headD 0 = 4 then some (values.getLastD 0)
  else if values = [0, 1, 2, 3, 12] then some 3
  else none

/-- Count of one rank among the cards (one entry of Counter(ranks)). -/
def count_rank (cards : List Card) (r : String) : Nat :=
  (cards.filter (fun c => c.rank == r)).length

/-- Descending comparison on (count, rank value) keys used for tiebreakers. -/
def tiebreak_ge (cards : List Card) (r1 r2 : String) : Bool :=
  decide (count_rank cards r2 < count_rank cards r1) ||
    (decide (count_rank cards r1 = count_rank cards r2) &&
      decide (rank_value r2 ≤ rank_value r1))

/-- HandEvaluator.evaluate_five: category rank, tiebreakers and name of a 5-card hand. -/
def evaluate_five (cards : List Card) : Nat × List Nat × String :=
  let flush := is_flush cards
  let straight := is_straight cards
  let keys := first_occs (cards.map (fun c => c.rank))
  let counts := sort_desc (keys.map (count_rank cards))
  let sorted_ranks := sort_by (tiebreak_ge cards) keys
  let tiebreakers := sorted_ranks.map rank_value
  if counts = [5] then (11, tiebreakers, "Five of a Kind")
  else if flush && straight == some 12 then (10, [12], "Royal Flush")
  else if flush && straight.isSome then (9, [straight.getD 0], "Straight Flush")
  else if counts = [4, 1] then (8, tiebreakers, "Four of a Kind")
  else if counts = [3, 2] then (7, tiebreakers, "Full House")
  else if flush then (6, sort_desc (cards.map card_value), "Flush")
  else if straight.isSome then (5, [straight.getD 0], "Straight")
  else if counts = [3, 1, 1] then (4, tiebreakers, "Three of a Kind")
  else if counts = [2, 2, 1] then (3, tiebreakers, "Two Pair")
  else if counts = [2, 1, 1, 1] then (2, tiebreakers, "One Pair")
  else (1, sort_desc (cards.map card_value), "High Card")

/-- itertools.combinations(l, n): all n-element sublists in lexicographic index order. -/
def combinations {α : Type} : List α → Nat → List (List α)
  | _, 0 => [[]]
  | [], _ + 1 => []
  | x :: xs, n + 1 =>
      (combinations xs n).map (fun c => x :: c) ++ combinations xs (n + 1)

/-- HandEvaluator.best_hand: best 5-card hand from hole plus community cards;
none models the Python crash on a pool smaller than 5 cards. -/
def best_hand (hole_cards community_cards : List Card) :
    Option ((Nat × List Nat × String) × List Card) :=
  (combinations (hole_cards ++ community_cards) 5).foldl
    (fun best combo =>
      let result := evaluate_five combo
      match best with
      | none => some (result, combo)
      | some (b, bc) =>
          if py_pair_gt (result.1, result.2.1) (b.1, b.2.1) then some (result, combo)
          else some (b, bc))
    none

/-- Comparison walk over the zipped tiebreaker lists (Python zip stops at the
shorter list). -/
def cmp_zip : List Nat → List Nat → Int
  | a :: as_, b :: bs =>
      if a ≠ b then (if b < a then 1 else -1) else cmp_zip as_ bs
  | _, _ => 0

/-- HandEvaluator.compare_hands on (rank, tiebreakers) pairs. -/
def compare_hands (h1 h2 : Nat × List Nat) : Int :=
  if h1.1 ≠ h2.1 then (if h2.1 < h1.1 then 1 else -1)
  else cmp_zip h1.2 h2.2

/-- Recursive generate_substitutions of WildCardEvaluator.expand_wild_cards:
for each wild slot try every rank and suit pair not already used, in RANKS
then SUITS order, and recurse on the remaining slots. -/
def generate_substitutions (hand : List Card) (used : List (String × String)) :
    List Nat → List (List Card)
  | [] => [hand]
  | i :: rest =>
      RANKS.flatMap (fun r =>
        SUITS.flatMap (fun s =>
          if (r, s) ∈ used then []
          else generate_substitutions (hand.set i ⟨r, s, SUIT_SYMBOLS s⟩)
            ((r, s) :: used) rest))

/-- WildCardEvaluator.expand_wild_cards: all concrete hands obtainable by
substituting the wild cards of a 5-card hand, capped at 10000. -/
def expand_wild_cards (cards : List Card) (wild_ranks : List String) :
    List (List Card) :=
  if wild_ranks.isEmpty then [cards]
  else
    let wild_indices :=
      ((List.range cards.length).zip cards).filterMap
        (fun ic => if wild_ranks.contains ic.2.rank then some ic.1 else none)
    if wild_indices.isEmpty then [cards]
    else
      let non_wild := cards.filter (fun c => !wild_ranks.contains c.rank)
      let used := non_wild.map (fun c => (c.rank, c.suit))
      let possible := generate_substitutions cards used wild_indices
      if possible.length > 10000 then possible.take 10000 else possible

/-- count of one value in a list of rank strings (Counter entry). -/
def count_occ (l : List String) (r : String) : Nat :=
  (l.filter (fun x => x == r)).length

/-- Fold step keeping the first-inserted value of maximal count. -/
def mc_step (l : List String) (acc : Option (String × Nat)) (r : String) :
    Option (String × Nat) :=
  match acc with
  | none => some (r, count_occ l r)
  | some (br, bc) => if bc < count_occ l r then some (r, count_occ l r) else some (br, bc)

/-- Counter(...).most_common(1): the earliest-inserted value of maximal count,
or none for an empty collection. -/
def most_common_1 (l : List String) : Option (String × Nat) :=
  (first_occs l).foldl (mc_step l) none

/-- Scarcity pre-check of WildCardEvaluator.best_hand_with_wilds (the block
guarded by wild_count > 0 and rank_counts nonempty): when the most common
non-wild count plus the wild count reaches 5, the combination is registered
directly as Five of a Kind on that rank. -/
def scarcity_check (combo : List Card) (wild_ranks : List String) :
    Option (Nat × List Nat × String) :=
  let wild_count := (combo.filter (fun c => wild_ranks.contains c.rank)).length
  if 0 < wild_count then
    let non_wild_ranks :=
      (combo.filter (fun c => !wild_ranks.contains c.rank)).map (fun c => c.rank)
    match most_common_1 non_wild_ranks with
    | none => none
    | some (r, cnt) =>
        if 5 ≤ cnt + wild_count then some (11, [rank_value r], "Five of a Kind")
        else none
  else none

/-- Inner loop of best_hand_with_wilds over the expanded hands of one combo;
the Bool is true when the loop returned early because Five of a Kind was found. -/
def bhww_inner (combo : List Card) :
    List (List Card) → Option ((Nat × List Nat × String) × List Card) →
      Option ((Nat × List Nat × String) × List Card) × Bool
  | [], best => (best, false)
  | ph :: rest, best =>
      let result := evaluate_five ph
      let best2 :=
        match best with
        | none => some (result, combo)
        | some (b, bc) =>
            if 0 < compare_hands (result.1, result.2.1) (b.1, b.2.1) then
              some (result, combo)
            else some (b, bc)
      if (match best2 with | some (b, _) => b.1 | none => 0) == 11 then (best2, true)
      else bhww_inner combo rest best2

/-- Outer loop of best_hand_with_wilds over the 5-card combinations. -/
def bhww_outer (wild_ranks : List String) :
    List (List Card) → Option ((Nat × List Nat × String) × List Card) →
      Option ((Nat × List Nat × String) × List Card)
  | [], best => best
  | combo :: rest, best =>
      match scarcity_check combo wild_ranks with
      | some result =>
          let best2 :=
            match best with
            | none => some (result, combo)
            | some (b, _) =>
                if decide (b.1 < result.1) ||
                    (decide (result.1 = b.1) && py_list_lt b.2.1 result.2.1) then
                  some (result, combo)
                else best
          bhww_outer wild_ranks rest best2
      | none =>
          let possible := expand_wild_cards combo wild_ranks
          match bhww_inner combo possible best with
          | (best2, true) => best2
          | (best2, false) => bhww_outer wild_ranks rest best2

/-- WildCardEvaluator.best_hand_with_wilds: best 5-card hand from the pool with
rank-based wild substitution; with no wild ranks it falls back to
HandEvaluator.best_hand on the whole pool. -/
def best_hand_with_wilds (all_cards : List Card) (wild_ranks : List String) :
    Option ((Nat × List Nat × String) × List Card) :=
  if wild_ranks.isEmpty then best_hand [] all_cards
  else bhww_outer wild_ranks (combinations all_cards 5) none

/-- LowHandEvaluator.LOW_RANK_VALUES as a key-value list. -/
def LOW_RANK_VALUES : List (String × Nat) :=
  [("A", 1), ("2", 2), ("3", 3), ("4", 4), ("5", 5), ("6", 6), ("7", 7),
   ("8", 8), ("9", 9), ("10", 10), ("J", 11), ("Q", 12), ("K", 13)]

/-- LowHandEvaluator.card_low_value: LOW_RANK_VALUES.get(rank, 99). -/
def card_low_value (c : Card) : Nat :=
  ((LOW_RANK_VALUES.find? (fun kv => kv.1 == c.rank)).map (fun kv => kv.2)).getD 99

/-- rank_names.get(v, str(v)) used for low-hand display strings. -/
def low_rank_name (v : Nat) : String :=
  if v = 1 then "A"
  else if v = 2 then "2"
  else if v = 3 then "3"
  else if v = 4 then "4"
  else if v = 5 then "5"
  else if v = 6 then "6"
  else if v = 7 then "7"
  else if v = 8 then "8"
  else toString v

/-- Display name chain of LowHandEvaluator.evaluate_low for a qualifying hand. -/
def low_display_name (sorted_values : List Nat) : String :=
  let display := String.intercalate "-" (sorted_values.map low_rank_name)
  if sorted_values = [5, 4, 3, 2, 1] then "The Wheel (A-2-3-4-5)"
  else if sorted_values = [6, 4, 3, 2, 1] then "Six-Four Low"
  else if sorted_values = [6, 5, 3, 2, 1] ∨ sorted_values = [6, 5, 4, 2, 1] ∨
      sorted_values = [6, 5, 4, 3, 1] then
    "Six Low (" ++ display ++ ")"
  else if sorted_values.headD 0 = 7 then "Seven Low (" ++ display ++ ")"
  else if sorted_values.headD 0 = 8 then "Eight Low (" ++ display ++ ")"
  else display ++ " Low"

/-- LowHandEvaluator.evaluate_low: 8-or-better qualification of a 5-card hand. -/
def evaluate_low (cards : List Card) : Bool × List Nat × String :=
  if cards.length ≠ 5 then (false, [99, 99, 99, 99, 99], "No Low")
  else
    let low_values := cards.map card_low_value
    let ranks := cards.map (fun c => c.rank)
    if (first_occs ranks).length ≠ 5 then
      (false, [99, 99, 99, 99, 99], "No Low (paired)")
    else if 8 < low_values.foldl max 0 then
      (false, [99, 99, 99, 99, 99], "No Low (9+ card)")
    else
      let sorted_values := sort_desc low_values
      (true, sorted_values, low_display_name sorted_values)

/-- LowHandEvaluator.best_low_hand: best qualifying low from a pool; the
best_cards component is none when no 5-card subset qualifies. -/
def best_low_hand (all_cards : List Card) :
    (Bool × List Nat × String) × Option (List Card) :=
  let best :=
    (combinations all_cards 5).foldl
      (fun best combo =>
        let r := evaluate_low combo
        if r.1 then
          match best with
          | none => some (r, combo)
          | some (b, bc) =>
              if py_list_lt r.2.1 b.2.1 then some (r, combo) else some (b, bc)
        else best)
      none
  match best with
  | none => ((false, [99, 99, 99, 99, 99], "No Low"), none)
  | some (b, bc) => (b, some bc)

/-- LowHandEvaluator.compare_low_hands on (qualifies, low_values) pairs. -/
def compare_low_hands (l1 l2 : Bool × List Nat) : Int :=
  if l1.1 && !l2.1 then 1
  else if l2.1 && !l1.1 then -1
  else if !l1.1 && !l2.1 then 0
  else if py_list_lt l1.2 l2.2 then 1
  else if py_list_lt l2.2 l1.2 then -1
  else 0

/-!  Betting state machine of BasePokerGame (game_classes.py). -/

/-- Betting view of one player dict: the fields read and written by
player_action, _check_round_complete, _post_antes and _post_bring_in. -/
structure Player where
  chips : Int
  current_bet : Int
  folded : Bool
  is_all_in : Bool
deriving DecidableEq

/-- Betting view of the table state of BasePokerGame. -/
structure GameState where
  pot : Int
  current_bet : Int
  players : List Player
  current_player : Nat
  last_raiser : Option Nat
  round_complete : Bool
  phase : String
deriving DecidableEq

/-- BasePokerGame.get_active_players: players still in the hand. -/
def get_active_players (players : List Player) : List Player :=
  players.filter (fun p => !p.folded)

/-- BasePokerGame.get_players_to_act: players neither folded nor all-in. -/
def get_players_to_act (players : List Player) : List Player :=
  players.filter (fun p => !p.folded && !p.is_all_in)

/-- all_matched flag of _check_round_complete: every player has matched the
current bet, folded, or gone all-in. -/
def all_matched (s : GameState) : Bool :=
  s.players.all (fun p => p.current_bet == s.current_bet || p.folded || p.is_all_in)

/-- BasePokerGame._check_round_complete, as a function on the state. -/
def check_round_complete (s : GameState) : GameState :=
  if (get_active_players s.players).length == 1 then
    { s with round_complete := true, phase := "showdown" }
  else if (get_players_to_act s.players).length == 0 then
    { s with round_complete := true }
  else if all_matched s && (s.last_raiser == some s.current_player) then
    { s with round_complete := true }
  else s

/-- while loop of BasePokerGame._skip_folded_players with its attempts counter
as fuel: advance past folded and all-in players, at most players.length steps. -/
def skip_folded_aux (players : List Player) : Nat → Nat → Nat
  | 0, cur => cur
  | fuel + 1, cur =>
      if (players[cur]?).elim false (fun p => p.folded || p.is_all_in) then
        skip_folded_aux players fuel ((cur + 1) % players.length)
      else cur

/-- BasePokerGame._skip_folded_players on an index. -/
def skip_folded (players : List Player) (cur : Nat) : Nat :=
  skip_folded_aux players players.length cur

/-- Tail of player_action after a successful action: advance the turn and skip
folded or all-in players. -/
def advance_turn (s : GameState) : GameState :=
  { s with current_player :=
      skip_folded s.players ((s.current_player + 1) % s.players.length) }

/-- advance_turn followed by _check_round_complete, the common epilogue of
every accepted action in player_action. -/
def finish_action (s : GameState) : GameState :=
  check_round_complete (advance_turn s)

/-- BasePokerGame.player_action: apply one action for the player to act.
none models the Python IndexError when current_player is out of range; the
returned triple is (new state, ok, message). -/
def player_action (s : GameState) (action : String) (amount : Option Int) :
    Option (GameState × Bool × String) :=
  match s.players[s.current_player]? with
  | none => none
  | some player =>
      if action == "fold" then
        let s := { s with
          players := s.players.set s.current_player { player with folded := true } }
        some (finish_action s, true, "OK")
      else if action == "check" then
        if s.current_bet > player.current_bet then
          some (s, false, "Cannot check, must call or raise")
        else some (finish_action s, true, "OK")
      else if action == "call" then
        let call_amount := min (s.current_bet - player.current_bet) player.chips
        let p2 := { player with
          chips := player.chips - call_amount,
          current_bet := player.current_bet + call_amount }
        let p3 := if p2.chips == 0 then { p2 with is_all_in := true } else p2
        let s := { s with
          players := s.players.set s.current_player p3, pot := s.pot + call_amount }
        some (finish_action s, true, "OK")
      else if action == "raise" then
        let amt := amount.getD (s.current_bet * 2)
        if amt < s.current_bet * 2 ∧ amt < player.chips + player.current_bet then
          some (s, false, "Minimum raise is " ++ toString (s.current_bet * 2))
        else
          let raise_amount := min (amt - player.current_bet) player.chips
          let p2 := { player with
            chips := player.chips - raise_amount,
            current_bet := player.current_bet + raise_amount }
          let p3 := if p2.chips == 0 then { p2 with is_all_in := true } else p2
          let s := { s with
            players := s.players.set s.current_player p3,
            pot := s.pot + raise_amount,
            current_bet := p2.current_bet,
            last_raiser := some s.current_player }
          some (finish_action s, true, "OK")
      else if action == "all-in" then
        let all_in_amount := player.chips
        let p2 := { player with
          chips := 0,
          current_bet := player.current_bet + all_in_amount,
          is_all_in := true }
        let s2 := { s with
          players := s.players.set s.current_player p2, pot := s.pot + all_in_amount }
        let s3 :=
          if p2.current_bet > s.current_bet then
            { s2 with current_bet := p2.current_bet, last_raiser := some s.current_player }
          else s2
        some (finish_action s3, true, "OK")
      else
        some (finish_action s, true, "OK")

/-- Loop body of _post_antes (shared by HoldemGame and StudFollowQueenGame):
each player posts min(ante, chips); returns the updated players and the total
added to the pot. -/
def post_antes_players (ante_amount : Int) : List Player → List Player × Int
  | [] => ([], 0)
  | p :: rest =>
      let ante := min ante_amount p.chips
      let r := post_antes_players ante_amount rest
      ({ p with chips := p.chips - ante } :: r.1, ante + r.2)

/-- StudFollowQueenGame._post_antes (identical to HoldemGame._post_antes). -/
def post_antes (ante_amount : Int) (s : GameState) : GameState :=
  let r := post_antes_players ante_amount s.players
  { s with players := r.1, pot := s.pot + r.2 }

/-- StudFollowQueenGame._post_bring_in: the bring-in player posts
min(bring_in_amount, chips); an out-of-range index leaves the state unchanged
(unreachable in the game, where the index comes from _determine_bring_in). -/
def post_bring_in (bring_in_amount : Int) (idx : Nat) (s : GameState) : GameState :=
  match s.players[idx]? with
  | none => s
  | some player =>
      let bring_in := min bring_in_amount player.chips
      { s with
        players := s.players.set idx
          { player with chips := player.chips - bring_in, current_bet := bring_in },
        pot := s.pot + bring_in,
        current_bet := bring_in,
        last_raiser := some idx }

/-!  Follow-the-Queen wild-rank propagation (StudFollowQueenGame). -/

/-- Entry of wild_card_history built by _check_for_queens. -/
structure WildHistEntry where
  phase : String
  trigger_card : Card
  new_wild_rank : String
  player_name : String
deriving DecidableEq

/-- Wild-rank state of StudFollowQueenGame read and written by
_check_for_queens. -/
structure WildState where
  phase : String
  current_wild_rank : String
  wild_card_history : List WildHistEntry
deriving DecidableEq

/-- newly_dealt_cards.index((player, card)): first index of an equal
(player, card) pair, as Python list.index. -/
def index_of_pair (dealt : List (String × Card)) (pc : String × Card) : Nat :=
  dealt.findIdx (fun x => decide (x = pc))

/-- Wild rank resulting from one Queen of the pass: the rank of the card dealt
immediately after the Queen, or "Q" when the Queen was the last card dealt. -/
def queen_outcome (dealt : List (String × Card)) (pc : String × Card) : String :=
  let queen_index := index_of_pair dealt pc
  if queen_index < dealt.length - 1 then
    ((dealt[queen_index + 1]?).elim "Q" (fun x => x.2.rank))
  else "Q"

/-- Loop body of _check_for_queens for one Queen of the pass. -/
def process_queen (dealt : List (String × Card)) (st : WildState)
    (pc : String × Card) : WildState :=
  let new_wild_rank := queen_outcome dealt pc
  { st with
    current_wild_rank := new_wild_rank,
    wild_card_history := st.wild_card_history ++
      [⟨st.phase, pc.2, new_wild_rank, pc.1⟩] }

/-- StudFollowQueenGame._check_for_queens on one pass of face-up dealt cards,
given as (player name, card) pairs in global deal order (the newly_dealt list
built by _initialize_hand and _deal_street_cards). -/
def check_for_queens (st : WildState) (dealt : List (String × Card)) : WildState :=
  let queens := dealt.filter (fun pc => pc.2.rank == "Q")
  if queens.isEmpty then st
  else queens.foldl (process_queen dealt) st

/-!  Pot distribution at showdown (determine_winners of BasePokerGame and
StudFollowQueenGame).  The hand and low evaluations that _evaluate_hands
stores on each player dict are carried as fields here, so determine_winners
is modelled on players whose hand_result and low_result are already filled
in, exactly as the Python comparison and distribution code reads them. -/

/-- Showdown view of one player dict: id plus the stored hand_result
(rank, tiebreakers, name) and low_result (qualifies, low_values, name). -/
structure ShowdownPlayer where
  id : Nat
  hand_rank : Nat
  hand_tiebreakers : List Nat
  hand_name : String
  low_qualifies : Bool
  low_values : List Nat
  low_name : String
  folded : Bool
deriving DecidableEq

/-- Entry of the results list returned by determine_winners; the low_hand
key added on a scoop and the player dict itself are projected away, keeping
the player id, amount, hand name and win_type. -/
structure WinEntry where
  player_id : Nat
  amount : Int
  hand : String
  win_type : String
deriving DecidableEq

/-- One step of the loop of determine_winners collecting ties for the best
high hand. -/
def high_step (acc : Option ((Nat × List Nat) × List ShowdownPlayer))
    (p : ShowdownPlayer) : Option ((Nat × List Nat) × List ShowdownPlayer) :=
  match acc with
  | none => some ((p.hand_rank, p.hand_tiebreakers), [p])
  | some (best, ps) =>
      let c := compare_hands (p.hand_rank, p.hand_tiebreakers) best
      if 0 < c then some ((p.hand_rank, p.hand_tiebreakers), [p])
      else if c = 0 then some (best, ps ++ [p])
      else some (best, ps)

/-- Loop of determine_winners collecting all ties for the best high hand,
in player-list order. -/
def select_best_high (active : List ShowdownPlayer) : List ShowdownPlayer :=
  (active.foldl high_step none).elim [] (fun x => x.2)

/-- One step of the loop collecting ties for the best qualifying low hand. -/
def low_step (acc : Option ((Bool × List Nat) × List ShowdownPlayer))
    (p : ShowdownPlayer) : Option ((Bool × List Nat) × List ShowdownPlayer) :=
  if p.low_qualifies then
    match acc with
    | none => some ((p.low_qualifies, p.low_values), [p])
    | some (best, ps) =>
        let c := compare_low_hands (p.low_qualifies, p.low_values) best
        if 0 < c then some ((p.low_qualifies, p.low_values), [p])
        else if c = 0 then some (best, ps ++ [p])
        else some (best, ps)
  else acc

/-- Loop of StudFollowQueenGame.determine_winners collecting all ties for the
best qualifying low hand, in player-list order. -/
def select_best_low (active : List ShowdownPlayer) : List ShowdownPlayer :=
  (active.foldl low_step none).elim [] (fun x => x.2)

/-- enumerate loop distributing a pot among tied winners: winner i receives
pot // n plus one extra unit when i < pot % n. -/
def distribute_aux (q r : Int) (hand_of : ShowdownPlayer → String) (wt : String) :
    Nat → List ShowdownPlayer → List WinEntry
  | _, [] => []
  | i, p :: rest =>
      ⟨p.id, q + (if (i : Int) < r then 1 else 0), hand_of p, wt⟩ ::
        distribute_aux q r hand_of wt (i + 1) rest

/-- share-and-remainder distribution of a pot among tied winners, as written
in determine_winners (share = pot // n, remainder = pot % n, the first
remainder winners receive one extra unit). -/
def distribute (pot : Int) (winners : List ShowdownPlayer)
    (hand_of : ShowdownPlayer → String) (wt : String) : List WinEntry :=
  distribute_aux (Int.ediv pot (winners.length : Int))
    (Int.emod pot (winners.length : Int)) hand_of wt 0 winners

/-- Update loop run when a low winner already has a high entry: the first
results entry with this player id and win_type high absorbs the low amount
and becomes the combined scoop entry. -/
def update_first_high (eid : Nat) (amt : Int) : List WinEntry → List WinEntry
  | [] => []
  | r :: rest =>
      if r.player_id == eid && r.win_type == "high" then
        { r with amount := r.amount + amt, win_type := "SCOOP (high + low)" } :: rest
      else r :: update_first_high eid amt rest

/-- Low-half loop body of StudFollowQueenGame.determine_winners: merge one low
winner entry into the results, combining with an existing high entry of the
same player into a scoop entry, otherwise appending a low entry. -/
def add_low_winner (results : List WinEntry) (e : WinEntry) : List WinEntry :=
  if results.any (fun r => r.player_id == e.player_id && r.win_type == "high") then
    update_first_high e.player_id e.amount results
  else results ++ [e]

/-- Comparison and distribution part of determine_winners once at least two
players reach showdown: find the best high hand(s), and in Hi-Lo mode also
the best qualifying low hand(s), then split the pot. -/
def showdown_split (hi_lo : Bool) (pot : Int) (active : List ShowdownPlayer) :
    List WinEntry :=
  let best_high := select_best_high active
  if !hi_lo then distribute pot best_high (fun p => p.hand_name) "high"
  else
    let best_low := select_best_low active
    if best_low.isEmpty then
      distribute pot best_high (fun p => p.hand_name)
        "high (scoops - no qualifying low)"
    else
      let high_pot := Int.ediv pot 2
      let low_pot := pot - high_pot
      let high_entries := distribute high_pot best_high (fun p => p.hand_name) "high"
      let low_entries := distribute low_pot best_low (fun p => p.low_name) "low"
      low_entries.foldl add_low_winner high_entries

/-- StudFollowQueenGame.determine_winners with two_natural_sevens_wins at its
default False (so the instant-win branch is skipped), on players carrying
their evaluated hand_result and low_result.  hi_lo false also models
BasePokerGame.determine_winners, whose comparison and split code is
identical. -/
def determine_winners (hi_lo : Bool) (pot : Int) (players : List ShowdownPlayer) :
    List WinEntry :=
  let active := players.filter (fun p => !p.folded)
  match active with
  | [w] => [⟨w.id, pot, "", "fold"⟩]
  | _ => showdown_split hi_lo pot active

/-!  Client snapshots (get_state of BasePokerGame and StudFollowQueenGame). -/

/-- Opaque face-down placeholder card sent for hidden cards. -/
def back_card : Card := ⟨"?", "back", ""⟩

/-- Player dict of StudFollowQueenGame as read by its get_state. -/
structure StudPlayer where
  id : Nat
  name : String
  chips : Int
  current_bet : Int
  folded : Bool
  is_all_in : Bool
  is_human : Bool
  last_win : Int
  down_cards : List Card
  up_cards : List Card
  cards_revealed : Bool
  hand_result : Option (Nat × List Nat × String)
  low_result : Option (Bool × List Nat × String)
deriving DecidableEq

/-- player_data dict built by StudFollowQueenGame.get_state for one player;
hand_result and low_result are none when the dict omits those keys. -/
structure StudPlayerView where
  id : Nat
  name : String
  chips : Int
  current_bet : Int
  folded : Bool
  is_all_in : Bool
  is_human : Bool
  is_dealer : Bool
  last_win : Int
  down_cards : List Card
  up_cards : List Card
  cards_revealed : Bool
  hand_result : Option (Nat × List Nat × String)
  low_result : Option (Bool × List Nat × String)
deriving DecidableEq

/-- One iteration of the players loop of StudFollowQueenGame.get_state:
cards are shown to the owner or once the player has revealed them; otherwise
down cards become count-preserving placeholders while up cards stay visible.
idx is the position of the player in the list (Python self.players.index(p),
which equals the position since player dicts are distinct). -/
def stud_player_view (player_id : Option Nat) (dealer_position idx : Nat)
    (p : StudPlayer) : StudPlayerView :=
  let is_owner := some p.id == player_id
  let has_revealed := p.cards_revealed
  if is_owner || has_revealed then
    { id := p.id, name := p.name, chips := p.chips, current_bet := p.current_bet,
      folded := p.folded, is_all_in := p.is_all_in, is_human := p.is_human,
      is_dealer := idx == dealer_position, last_win := p.last_win,
      down_cards := p.down_cards, up_cards := p.up_cards,
      cards_revealed := has_revealed,
      hand_result := p.hand_result, low_result := p.low_result }
  else
    { id := p.id, name := p.name, chips := p.chips, current_bet := p.current_bet,
      folded := p.folded, is_all_in := p.is_all_in, is_human := p.is_human,
      is_dealer := idx == dealer_position, last_win := p.last_win,
      down_cards := List.replicate p.down_cards.length back_card,
      up_cards := p.up_cards,
      cards_revealed := false,
      hand_result := none, low_result := none }

/-- players_state loop of StudFollowQueenGame.get_state, carrying the running
index. -/
def stud_players_state (player_id : Option Nat) (dealer_position : Nat) :
    Nat → List StudPlayer → List StudPlayerView
  | _, [] => []
  | idx, p :: rest =>
      stud_player_view player_id dealer_position idx p ::
        stud_players_state player_id dealer_position (idx + 1) rest

/-- Table state of StudFollowQueenGame as read by its get_state. -/
structure StudGameState where
  phase : String
  pot : Int
  current_bet : Int
  players : List StudPlayer
  current_player : Nat
  dealer_position : Nat
  round_complete : Bool
  game_started : Bool
  num_players : Nat
  player_sessions : List (String × Nat)
  current_wild_rank : String
  wild_card_history : List WildHistEntry
  ante_amount : Int
  bring_in_amount : Int
  hi_lo : Bool
  two_natural_sevens_wins : Bool
  deal_sevens_to_michael : Bool
deriving DecidableEq

/-- Dict returned by StudFollowQueenGame.get_state. -/
structure StudStateView where
  phase : String
  pot : Int
  current_bet : Int
  players : List StudPlayerView
  current_player : Nat
  is_my_turn : Bool
  my_player_id : Option Nat
  dealer_position : Nat
  round_complete : Bool
  game_started : Bool
  num_players : Nat
  game_mode : String
  current_wild_rank : String
  wild_card_history : List WildHistEntry
  community_cards : List Card
  ante_amount : Int
  bring_in_amount : Int
  hi_lo : Bool
  two_natural_sevens_wins : Bool
  deal_sevens_to_michael : Bool
deriving DecidableEq

/-- player_sessions.get(for_session) if for_session else None. -/
def session_player (sessions : List (String × Nat)) (for_session : Option String) :
    Option Nat :=
  match for_session with
  | none => none
  | some k => (sessions.find? (fun kv => kv.1 == k)).map (fun kv => kv.2)

/-- StudFollowQueenGame.get_state: the per-session snapshot of the table. -/
def stud_get_state (g : StudGameState) (for_session : Option String) : StudStateView :=
  let player_id := session_player g.player_sessions for_session
  let players_state := stud_players_state player_id g.dealer_position 0 g.players
  let is_my_turn :=
    if g.players.isEmpty || player_id == none then false
    else
      match g.players[g.current_player]? with
      | none => false
      | some current_player_obj => some current_player_obj.id == player_id
  { phase := g.phase, pot := g.pot, current_bet := g.current_bet,
    players := players_state, current_player := g.current_player,
    is_my_turn := is_my_turn, my_player_id := player_id,
    dealer_position := g.dealer_position, round_complete := g.round_complete,
    game_started := g.game_started, num_players := g.num_players,
    game_mode := "stud_follow_queen",
    current_wild_rank := g.current_wild_rank,
    wild_card_history := g.wild_card_history,
    community_cards := [],
    ante_amount := g.ante_amount, bring_in_amount := g.bring_in_amount,
    hi_lo := g.hi_lo,
    two_natural_sevens_wins := g.two_natural_sevens_wins,
    deal_sevens_to_michael := g.deal_sevens_to_michael }

/-- Player dict of BasePokerGame as read by its get_state. -/
structure BasePlayer where
  id : Nat
  name : String
  chips : Int
  current_bet : Int
  folded : Bool
  is_all_in : Bool
  is_human : Bool
  last_win : Int
  hole_cards : List Card
  hand_result : Option (Nat × List Nat × String)
deriving DecidableEq

/-- player_data dict built by BasePokerGame.get_state for one player. -/
structure BasePlayerView where
  id : Nat
  name : String
  chips : Int
  current_bet : Int
  folded : Bool
  is_all_in : Bool
  is_human : Bool
  is_dealer : Bool
  last_win : Int
  hole_cards : List Card
  hand_result : Option (Nat × List Nat × String)
deriving DecidableEq

/-- One iteration of the players loop of BasePokerGame.get_state: hole cards
are shown to the owner or to everyone at showdown, otherwise replaced by
placeholders (an empty hand stays empty). -/
def base_player_view (player_id : Option Nat) (phase : String)
    (dealer_position idx : Nat) (p : BasePlayer) : BasePlayerView :=
  if some p.id == player_id || phase == "showdown" then
    { id := p.id, name := p.name, chips := p.chips, current_bet := p.current_bet,
      folded := p.folded, is_all_in := p.is_all_in, is_human := p.is_human,
      is_dealer := idx == dealer_position, last_win := p.last_win,
      hole_cards := p.hole_cards, hand_result := p.hand_result }
  else
    { id := p.id, name := p.name, chips := p.chips, current_bet := p.current_bet,
      folded := p.folded, is_all_in := p.is_all_in, is_human := p.is_human,
      is_dealer := idx == dealer_position, last_win := p.last_win,
      hole_cards :=
        if 0 < p.hole_cards.length then
          List.replicate p.hole_cards.length back_card
        else [],
      hand_result := none }

/-- players_state loop of BasePokerGame.get_state (the surrounding state dict
is modelled in full only for the stud variant, which the snapshot claim
targets). -/
def base_players_state (player_id : Option Nat) (phase : String)
    (dealer_position : Nat) : Nat → List BasePlayer → List BasePlayerView
  | _, [] => []
  | idx, p :: rest =>
      base_player_view player_id phase dealer_position idx p ::
        base_players_state player_id phase dealer_position (idx + 1) rest

/-!  Named predicates and concrete inputs used by the claim theorems. -/

/-- Completion clause (a) of _check_round_complete: exactly one non-folded
player remains. -/
def cond_one_left (s : GameState) : Prop :=
  (get_active_players s.players).length = 1

/-- Completion clause (b): no player can still act. -/
def cond_none_to_act (s : GameState) : Prop :=
  (get_players_to_act s.players).length = 0

/-- Completion clause (c): every bet is matched (or the player is folded or
all-in) and the advanced turn index equals the last raiser. -/
def cond_back_to_raiser (s : GameState) : Prop :=
  all_matched s = true ∧ s.last_raiser = some s.current_player

/-- Resulting state of player_action, discarding the ok flag and message
(chains the concrete betting scenarios). -/
def apply_ok (s : GameState) (action : String) (amount : Option Int) : GameState :=
  match player_action s action amount with
  | some (s2, _, _) => s2
  | none => s

/-- Fresh player with 100 chips for the 3-player round-completion scenario. -/
def scenario_player : Player :=
  { chips := 100, current_bet := 0, folded := false, is_all_in := false }

/-- 3 players, bets [0, 0, 0], player 0 to act. -/
def scenario_s0 : GameState :=
  { pot := 0, current_bet := 0,
    players := [scenario_player, scenario_player, scenario_player],
    current_player := 0, last_raiser := none, round_complete := false,
    phase := "pre-flop" }

/-- State after player 0 raises to 20. -/
def scenario_s1 : GameState := apply_ok scenario_s0 "raise" (some 20)

/-- State after player 1 calls. -/
def scenario_s2 : GameState := apply_ok scenario_s1 "call" none

/-- State after player 2 calls. -/
def scenario_s3 : GameState := apply_ok scenario_s2 "call" none

/-- State with current_bet 20 where player 1 (bet 0, chips 100) is to act. -/
def reject_state : GameState :=
  { pot := 30, current_bet := 20,
    players := [⟨80, 20, false, false⟩, ⟨100, 0, false, false⟩],
    current_player := 1, last_raiser := some 0, round_complete := false,
    phase := "third_street" }

/-- Pool {A♠, A♥, A♦, A♣, Q♥, 2♣, 3♦} of the scarcity scenario. -/
def scarcity_pool : List Card :=
  [⟨"A", "spades", "♠"⟩, ⟨"A", "hearts", "♥"⟩, ⟨"A", "diamonds", "♦"⟩,
   ⟨"A", "clubs", "♣"⟩, ⟨"Q", "hearts", "♥"⟩, ⟨"2", "clubs", "♣"⟩,
   ⟨"3", "diamonds", "♦"⟩]

/-- Plain 5-card pool without wild ranks. -/
def plain_pool : List Card :=
  [⟨"2", "spades", "♠"⟩, ⟨"5", "hearts", "♥"⟩, ⟨"9", "diamonds", "♦"⟩,
   ⟨"J", "clubs", "♣"⟩, ⟨"K", "spades", "♠"⟩]

/-- Wild state before the Follow-the-Queen pass (Queens only wild). -/
def ftq_state : WildState :=
  { phase := "fourth_street", current_wild_rank := "Q", wild_card_history := [] }

/-- Deal order [P1: 7♣, P2: Q♥, P3: 9♦] of one face-up pass. -/
def ftq_pass : List (String × Card) :=
  [("P1", ⟨"7", "clubs", "♣"⟩), ("P2", ⟨"Q", "hearts", "♥"⟩),
   ("P3", ⟨"9", "diamonds", "♦"⟩)]

/-- Three showdown players: players 0 and 1 tie with one pair, player 2 has
high card only. -/
def tie_players : List ShowdownPlayer :=
  [⟨0, 2, [5, 3, 2], "One Pair", false, [], "", false⟩,
   ⟨1, 2, [5, 3, 2], "One Pair", false, [], "", false⟩,
   ⟨2, 1, [9, 5, 3, 2, 1], "High Card", false, [], "", false⟩]

/-- Hi-Lo scoop scenario: player 0 holds both the best high hand and the best
qualifying low, player 1 a worse low, player 2 no low. -/
def scoop_players : List ShowdownPlayer :=
  [⟨0, 8, [5, 1], "Four of a Kind", true, [5, 4, 3, 2, 1],
    "The Wheel (A-2-3-4-5)", false⟩,
   ⟨1, 2, [5, 3, 2], "One Pair", true, [8, 4, 3, 2, 1],
    "Eight Low (8-4-3-2-A)", false⟩,
   ⟨2, 1, [9, 5, 3, 2, 1], "High Card", false, [99, 99, 99, 99, 99],
    "No Low", false⟩]

/-- Stud player 0 (the requesting player) of the snapshot scenario. -/
def snap_p0 : StudPlayer :=
  { id := 0, name := "Alice", chips := 500, current_bet := 0, folded := false,
    is_all_in := false, is_human := true, last_win := 0,
    down_cards := [⟨"2", "clubs", "♣"⟩, ⟨"3", "clubs", "♣"⟩],
    up_cards := [⟨"4", "clubs", "♣"⟩], cards_revealed := false,
    hand_result := none, low_result := none }

/-- Stud player 1 of the snapshot scenario: at showdown, reveal flag unset. -/
def snap_p1 : StudPlayer :=
  { id := 1, name := "Bob", chips := 480, current_bet := 0, folded := false,
    is_all_in := false, is_human := true, last_win := 0,
    down_cards := [⟨"K", "hearts", "♥"⟩, ⟨"A", "hearts", "♥"⟩],
    up_cards := [⟨"9", "spades", "♠"⟩], cards_revealed := false,
    hand_result := none, low_result := none }

/-- Same hidden hole cards replaced by different ones (same count). -/
def snap_p1_alt : StudPlayer :=
  { snap_p1 with down_cards := [⟨"5", "diamonds", "♦"⟩, ⟨"6", "diamonds", "♦"⟩] }

/-- Stud table at showdown with players 0 and 1; neither has revealed. -/
def snap_game : StudGameState :=
  { phase := "showdown", pot := 40, current_bet := 0,
    players := [snap_p0, snap_p1], current_player := 0, dealer_position := 0,
    round_complete := true, game_started := true, num_players := 5,
    player_sessions := [("sessA", 0), ("sessB", 1)],
    current_wild_rank := "Q", wild_card_history := [],
    ante_amount := 5, bring_in_amount := 10, hi_lo := false,
    two_natural_sevens_wins := false, deal_sevens_to_michael := false }

/-- snap_game with player 1 holding different hidden cards. -/
def snap_game_alt : StudGameState :=
  { snap_game with players := [snap_p0, snap_p1_alt] }

/-- Relation between two stud player dicts agreeing on everything a snapshot
for a given viewer may reveal: all fields coincide except possibly the
identities of hidden down cards, whose number still agrees; down cards must
coincide when the player is the viewer or has revealed them. -/
def hidden_variant (viewer_id : Option Nat) (p q : StudPlayer) : Prop :=
  p.id = q.id ∧ p.name = q.name ∧ p.chips = q.chips ∧
  p.current_bet = q.current_bet ∧ p.folded = q.folded ∧
  p.is_all_in = q.is_all_in ∧ p.is_human = q.is_human ∧
  p.last_win = q.last_win ∧ p.up_cards = q.up_cards ∧
  p.cards_revealed = q.cards_revealed ∧ p.hand_result = q.hand_result ∧
  p.low_result = q.low_result ∧ p.down_cards.length = q.down_cards.length ∧
  ((some p.id = viewer_id ∨ p.cards_revealed = true) → p.down_cards = q.down_cards)

/-!  Helper lemmas about the betting epilogue. -/

lemma check_round_complete_players (s : GameState) :
    (check_round_complete s).players = s.players := by
  unfold check_round_complete; split_ifs <;> rfl

lemma check_round_complete_current_bet (s : GameState) :
    (check_round_complete s).current_bet = s.current_bet := by
  unfold check_round_complete; split_ifs <;> rfl

lemma check_round_complete_current_player (s : GameState) :
    (check_round_complete s).current_player = s.current_player := by
  unfold check_round_complete; split_ifs <;> rfl

lemma check_round_complete_last_raiser (s : GameState) :
    (check_round_complete s).last_raiser = s.last_raiser := by
  unfold check_round_complete; split_ifs <;> rfl

lemma finish_action_players (s : GameState) :
    (finish_action s).players = s.players := by
  unfold finish_action advance_turn
  rw [check_round_complete_players]

/-- Completion clauses depend only on players, current_bet, current_player and
last_raiser, all preserved by _check_round_complete. -/
lemma check_round_complete_conds (s : GameState) :
    (cond_one_left (check_round_complete s) ↔ cond_one_left s) ∧
    (cond_none_to_act (check_round_complete s) ↔ cond_none_to_act s) ∧
    (cond_back_to_raiser (check_round_complete s) ↔ cond_back_to_raiser s) := by
  unfold cond_one_left cond_none_to_act cond_back_to_raiser all_matched
  rw [check_round_complete_players, check_round_complete_current_bet,
    check_round_complete_current_player, check_round_complete_last_raiser]
  exact ⟨Iff.rfl, Iff.rfl, Iff.rfl⟩

/-- Behaviour of _check_round_complete: it switches round_complete on exactly
under clause (a), (b) or (c), and clause (a) forces the showdown phase. -/
lemma check_round_complete_spec (s : GameState) :
    ((check_round_complete s).round_complete = true ↔
      s.round_complete = true ∨ cond_one_left s ∨ cond_none_to_act s ∨
        cond_back_to_raiser s) ∧
    (cond_one_left s → (check_round_complete s).phase = "showdown") := by
  unfold check_round_complete cond_one_left cond_none_to_act cond_back_to_raiser
  split_ifs with h1 h2 h3 <;> simp_all

/-- Every accepted action ends in finish_action, so the returned state is
_check_round_complete of an intermediate state whose round_complete flag was
untouched. -/
lemma player_action_success_shape (s : GameState) (act : String) (amt : Option Int)
    (s2 : GameState) (msg : String)
    (h : player_action s act amt = some (s2, true, msg)) :
    ∃ t, s2 = check_round_complete t ∧ t.round_complete = s.round_complete := by
  unfold player_action at h
  cases hm : s.players[s.current_player]? with
  | none => rw [hm] at h; exact absurd h (by simp)
  | some p =>
      rw [hm] at h
      dsimp only at h
      split_ifs at h <;>
        simp only [Option.some.injEq, Prod.mk.injEq, Bool.false_eq_true,
          false_and, and_false] at h <;>
        exact ⟨_, h.1.symm, rfl⟩

/-- C2.  Round-completion predicate: after every successfully applied action
starting from a state whose round was not yet complete, round_complete is
true iff exactly one non-folded player remains (which also forces the phase
to showdown), or no player can still act, or every bet is matched and the
advanced turn index equals last_raiser; and in the concrete 3-player
scenario with bets [0,0,0], after P1 raises to 20 and P2 and P3 call,
round_complete becomes true exactly on the call that returns the turn to P1
with all bets at 20, and not after any earlier action. -/
theorem round_completion_predicate :
    (∀ (s : GameState) (act : String) (amt : Option Int) (s2 : GameState)
        (msg : String),
      player_action s act amt = some (s2, true, msg) →
      s.round_complete = false →
      ((s2.round_complete = true ↔
          cond_one_left s2 ∨ cond_none_to_act s2 ∨ cond_back_to_raiser s2) ∧
        (cond_one_left s2 → s2.phase = "showdown"))) ∧
    (player_action scenario_s0 "raise" (some 20) = some (scenario_s1, true, "OK") ∧
      scenario_s1.round_complete = false ∧
      player_action scenario_s1 "call" none = some (scenario_s2, true, "OK") ∧
      scenario_s2.round_complete = false ∧
      player_action scenario_s2 "call" none = some (scenario_s3, true, "OK") ∧
      scenario_s3.round_complete = true ∧ scenario_s3.current_player = 0 ∧
      scenario_s3.players.map (fun p => p.current_bet) = [20, 20, 20] ∧
      scenario_s3.current_bet = 20) := by
  constructor
  · intro s act amt s2 msg h hrc
    obtain ⟨t, rfl, hts⟩ := player_action_success_shape s act amt s2 msg h
    obtain ⟨h1, h2, h3⟩ := check_round_complete_conds t
    have hspec := check_round_complete_spec t
    refine ⟨?_, ?_⟩
    · rw [h1, h2, h3, hspec.1, hts, hrc]
      simp
    · intro hone
      exact hspec.2 (h1.mp hone)
  · exact ⟨by decide, by decide, by decide, by decide, by decide, by decide,
      by decide, by decide, by decide⟩

/-- C2 witness: the general predicate applied to the last call of the
scenario shows round_complete true because clause (c) holds there. -/
theorem round_completion_predicate_witness : scenario_s3.round_complete = true := by
  have h := round_completion_predicate.1 scenario_s2 "call" none scenario_s3 "OK"
    (by decide) (by decide)
  exact h.1.mpr (Or.inr (Or.inr ⟨by decide, by decide⟩))

/-- C7.  Invalid actions are rejected atomically: a check is rejected whenever
the acting player owes a call, a raise is rejected whenever the amount is
below twice the current bet and below the player's full remaining stack, and
in both cases player_action returns the unchanged state with ok = false and a
reason. -/
theorem invalid_action_rejection :
    (∀ (s : GameState) (p : Player),
      s.players[s.current_player]? = some p →
      p.current_bet < s.current_bet →
      player_action s "check" none =
        some (s, false, "Cannot check, must call or raise")) ∧
    (∀ (s : GameState) (p : Player) (a : Int),
      s.players[s.current_player]? = some p →
      a < s.current_bet * 2 → a < p.chips + p.current_bet →
      player_action s "raise" (some a) =
        some (s, false, "Minimum raise is " ++ toString (s.current_bet * 2))) := by
  constructor
  · intro s p hm hb
    unfold player_action
    rw [hm]
    simp only [show (("check" : String) == "fold") = false from rfl,
      show (("check" : String) == "check") = true from rfl,
      Bool.false_eq_true, if_false, if_true]
    rw [if_pos hb]
  · intro s p a hm h1 h2
    unfold player_action
    rw [hm]
    simp only [show (("raise" : String) == "fold") = false from rfl,
      show (("raise" : String) == "check") = false from rfl,
      show (("raise" : String) == "call") = false from rfl,
      show (("raise" : String) == "raise") = true from rfl,
      Bool.false_eq_true, if_false, if_true, Option.getD_some]
    rw [if_pos ⟨h1, h2⟩]

/-- C7 witness: with current_bet 20, the player with bet 0 and 100 chips has
a check and an undersized raise to 30 rejected without any state change. -/
theorem invalid_action_rejection_witness :
    player_action reject_state "check" none =
      some (reject_state, false, "Cannot check, must call or raise") ∧
    player_action reject_state "raise" (some 30) =
      some (reject_state, false, "Minimum raise is 40") := by
  constructor
  · exact invalid_action_rejection.1 reject_state ⟨100, 0, false, false⟩
      (by decide) (by decide)
  · have h := invalid_action_rejection.2 reject_state ⟨100, 0, false, false⟩ 30
      (by decide) (by decide) (by decide)
    rw [h]
    decide

/-- C8.  With an empty wild-rank set, best_hand_with_wilds on a 5 to 7 card
pool returns exactly best_hand on the same pool. -/
theorem wild_eval_degenerates (pool : List Card)
    (h5 : 5 ≤ pool.length) (h7 : pool.length ≤ 7) :
    best_hand_with_wilds pool [] = best_hand [] pool := rfl

/-- C8 witness on a concrete 5-card pool. -/
theorem wild_eval_degenerates_witness :
    5 ≤ plain_pool.length ∧ plain_pool.length ≤ 7 ∧
      best_hand_with_wilds plain_pool [] = best_hand [] plain_pool :=
  ⟨by decide, by decide, wild_eval_degenerates plain_pool (by decide) (by decide)⟩

/-- ante posting keeps every stack non-negative, since each deduction is
min(ante, chips). -/
lemma post_antes_players_nonneg (a : Int) :
    ∀ l : List Player, (∀ p ∈ l, 0 ≤ p.chips) →
      ∀ p ∈ (post_antes_players a l).1, 0 ≤ p.chips := by
  intro l
  induction l with
  | nil => intro _ p hp; simp [post_antes_players] at hp
  | cons q rest ih =>
      intro hpre p hp
      simp only [post_antes_players] at hp
      rcases List.mem_cons.mp hp with rfl | hmem
      · have hq : 0 ≤ q.chips := hpre q (List.mem_cons_self q rest)
        have hmin : min a q.chips ≤ q.chips := min_le_right a q.chips
        dsimp only
        omega
      · exact ih (fun r hr => hpre r (List.mem_cons_of_mem _ hr)) p hmem

/-- C10.  Chips never go negative: ante posting, bring-in posting and every
action processed by player_action deduct at most the remaining chips, so a
state whose stacks are all non-negative can only evolve into another such
state. -/
theorem chips_never_negative :
    (∀ (a : Int) (s : GameState), (∀ p ∈ s.players, 0 ≤ p.chips) →
      ∀ p ∈ (post_antes a s).players, 0 ≤ p.chips) ∧
    (∀ (b : Int) (i : Nat) (s : GameState), (∀ p ∈ s.players, 0 ≤ p.chips) →
      ∀ p ∈ (post_bring_in b i s).players, 0 ≤ p.chips) ∧
    (∀ (s : GameState) (act : String) (amt : Option Int) (s2 : GameState)
        (ok : Bool) (msg : String),
      player_action s act amt = some (s2, ok, msg) →
      (∀ p ∈ s.players, 0 ≤ p.chips) → ∀ p ∈ s2.players, 0 ≤ p.chips) := by
  refine ⟨?_, ?_, ?_⟩
  · intro a s hpre p hp
    exact post_antes_players_nonneg a s.players hpre p hp
  · intro b i s hpre p hp
    unfold post_bring_in at hp
    cases hm : s.players[i]? with
    | none => rw [hm] at hp; exact hpre p hp
    | some q =>
        rw [hm] at hp
        dsimp only at hp
        rcases List.mem_or_eq_of_mem_set hp with hmem | rfl
        · exact hpre p hmem
        · have hq : 0 ≤ q.chips := hpre q (List.getElem?_mem hm)
          have hmin : min b q.chips ≤ q.chips := min_le_right b q.chips
          dsimp only
          omega
  · intro s act amt s2 ok msg h hpre
    unfold player_action at h
    cases hm : s.players[s.current_player]? with
    | none => rw [hm] at h; exact absurd h (by simp)
    | some p =>
        have hpc : 0 ≤ p.chips := hpre p (List.getElem?_mem hm)
        rw [hm] at h
        dsimp only at h
        split_ifs at h <;>
          (simp only [Option.some.injEq, Prod.mk.injEq] at h
           obtain ⟨h1, -⟩ := h
           subst h1) <;>
          first
          | exact hpre
          | (rw [finish_action_players]
             intro q hq
             first
             | exact hpre q hq
             | (rcases List.mem_or_eq_of_mem_set hq with hmem | rfl
                · exact hpre q hmem
                · dsimp only
                  first
                  | exact hpc
                  | omega))

/-- Membership through the first-occurrence fold. -/
lemma mem_first_occs_aux {α : Type} [DecidableEq α] :
    ∀ (l acc : List α) (x : α),
      x ∈ l.foldl (fun acc x => if x ∈ acc then acc else acc ++ [x]) acc ↔
        x ∈ acc ∨ x ∈ l := by
  intro l
  induction l with
  | nil => simp
  | cons y ys ih =>
      intro acc x
      simp only [List.foldl_cons]
      by_cases hy : y ∈ acc
      · rw [if_pos hy, ih]
        simp only [List.mem_cons]
        constructor
        · rintro (h | h)
          · exact Or.inl h
          · exact Or.inr (Or.inr h)
        · rintro (h | rfl | h)
          · exact Or.inl h
          · exact Or.inl hy
          · exact Or.inr h
      · rw [if_neg hy, ih]
        simp only [List.mem_append, List.mem_cons, List.mem_singleton]
        tauto

/-- first_occs keeps exactly the members of the list. -/
lemma mem_first_occs {α : Type} [DecidableEq α] (l : List α) (x : α) :
    x ∈ first_occs l ↔ x ∈ l := by
  unfold first_occs
  rw [mem_first_occs_aux]
  simp

/-- Invariant of the most_common_1 fold: the accumulator holds a value with
its exact count, and that count dominates every processed value. -/
lemma mc_foldl_spec (l : List String) :
    ∀ (xs : List String) (acc : Option (String × Nat)),
      (∀ br bc, acc = some (br, bc) → bc = count_occ l br) →
      ∀ r c, xs.foldl (mc_step l) acc = some (r, c) →
        c = count_occ l r ∧ (∀ x ∈ xs, count_occ l x ≤ c) ∧
          (∀ br bc, acc = some (br, bc) → bc ≤ c) := by
  intro xs
  induction xs with
  | nil =>
      intro acc hinv r c h
      simp only [List.foldl_nil] at h
      refine ⟨hinv r c h, by simp, ?_⟩
      intro br bc hacc
      rw [hacc] at h
      injection h with h1
      injection h1 with h2 h3
      omega
  | cons x xs ih =>
      intro acc hinv r c h
      simp only [List.foldl_cons] at h
      have hinv2 : ∀ br bc, mc_step l acc x = some (br, bc) →
          bc = count_occ l br := by
        intro br bc hs
        cases acc with
        | none =>
            simp only [mc_step] at hs
            injection hs with h1
            injection h1 with h2 h3
            subst h2
            omega
        | some v =>
            obtain ⟨vr, vc⟩ := v
            have hvc : vc = count_occ l vr := hinv vr vc rfl
            simp only [mc_step] at hs
            split_ifs at hs <;>
              (injection hs with h1; injection h1 with h2 h3; subst h2; omega)
      obtain ⟨hc, hxs, hacc2⟩ := ih (mc_step l acc x) hinv2 r c h
      have hx_le : ∃ br bc, mc_step l acc x = some (br, bc) ∧
          count_occ l x ≤ bc := by
        cases acc with
        | none => exact ⟨x, count_occ l x, rfl, le_refl _⟩
        | some v =>
            obtain ⟨vr, vc⟩ := v
            simp only [mc_step]
            split_ifs with hlt
            · exact ⟨x, count_occ l x, rfl, le_refl _⟩
            · exact ⟨vr, vc, rfl, le_of_not_lt hlt⟩
      refine ⟨hc, ?_, ?_⟩
      · intro y hy
        rcases List.mem_cons.mp hy with rfl | hmem
        · obtain ⟨br, bc, hs, hle⟩ := hx_le
          exact le_trans hle (hacc2 br bc hs)
        · exact hxs y hmem
      · intro br bc hacc
        cases acc with
        | none => simp at hacc
        | some v =>
            obtain ⟨vr, vc⟩ := v
            injection hacc with h1
            injection h1 with h2 h3
            simp only [mc_step] at hacc2
            split_ifs at hacc2 with hlt
            · rw [← h3]
              exact le_trans (le_of_lt hlt) (hacc2 x (count_occ l x) rfl)
            · rw [← h3]
              exact hacc2 vr vc rfl

/-- Counter.most_common(1) returns a value of maximal count together with its
exact count. -/
lemma most_common_1_spec (l : List String) (r : String) (c : Nat)
    (h : most_common_1 l = some (r, c)) :
    c = count_occ l r ∧ ∀ x ∈ l, count_occ l x ≤ c := by
  have hs := mc_foldl_spec l (first_occs l) none (by simp) r c h
  exact ⟨hs.1, fun x hx => hs.2.1 x ((mem_first_occs l x).mpr hx)⟩

/-- C3.  Wild scarcity Five of a Kind: whenever a 5-card combination holds at
least one wild card and the count of its most frequent non-wild rank plus the
wild count reaches 5, the scarcity pre-check of best_hand_with_wilds
registers that combination as Five of a Kind (rank 11) with the single
tiebreaker equal to that most frequent non-wild rank; and on the concrete
pool {A spades, A hearts, A diamonds, A clubs, Q hearts, 2 clubs, 3 diamonds}
with wild ranks {Q} the overall result is Five of a Kind with tiebreaker Ace
(value 12). -/
theorem wild_scarcity_five_of_a_kind :
    (∀ (combo : List Card) (wild_ranks : List String) (r : String) (cnt : Nat),
      0 < (combo.filter (fun c => wild_ranks.contains c.rank)).length →
      most_common_1
          ((combo.filter (fun c => !wild_ranks.contains c.rank)).map
            (fun c => c.rank)) = some (r, cnt) →
      5 ≤ cnt + (combo.filter (fun c => wild_ranks.contains c.rank)).length →
      scarcity_check combo wild_ranks = some (11, [rank_value r], "Five of a Kind") ∧
        cnt = count_occ
          ((combo.filter (fun c => !wild_ranks.contains c.rank)).map
            (fun c => c.rank)) r ∧
        (∀ x ∈ (combo.filter (fun c => !wild_ranks.contains c.rank)).map
            (fun c => c.rank),
          count_occ
            ((combo.filter (fun c => !wild_ranks.contains c.rank)).map
              (fun c => c.rank)) x ≤ cnt)) ∧
    best_hand_with_wilds scarcity_pool ["Q"] =
      some ((11, [12], "Five of a Kind"),
        [⟨"A", "spades", "♠"⟩, ⟨"A", "hearts", "♥"⟩, ⟨"A", "diamonds", "♦"⟩,
         ⟨"A", "clubs", "♣"⟩, ⟨"Q", "hearts", "♥"⟩]) := by
  constructor
  · intro combo wild_ranks r cnt hw hmc hge
    have hspec := most_common_1_spec _ r cnt hmc
    refine ⟨?_, hspec.1, hspec.2⟩
    unfold scarcity_check
    rw [if_pos hw]
    dsimp only
    rw [hmc]
    dsimp only
    rw [if_pos hge]
  · decide

/-- C3 witness: the scarcity pre-check applied to the all-Aces-plus-Queen
combination of the concrete pool. -/
theorem wild_scarcity_five_of_a_kind_witness :
    scarcity_check
        [⟨"A", "spades", "♠"⟩, ⟨"A", "hearts", "♥"⟩, ⟨"A", "diamonds", "♦"⟩,
         ⟨"A", "clubs", "♣"⟩, ⟨"Q", "hearts", "♥"⟩] ["Q"] =
      some (11, [rank_value "A"], "Five of a Kind") :=
  (wild_scarcity_five_of_a_kind.1
    [⟨"A", "spades", "♠"⟩, ⟨"A", "hearts", "♥"⟩, ⟨"A", "diamonds", "♦"⟩,
     ⟨"A", "clubs", "♣"⟩, ⟨"Q", "hearts", "♥"⟩] ["Q"] "A" 4
    (by decide) (by decide) (by decide)).1

/-- Processing a list of Queens folds the state through process_queen: the
phase never changes, the final wild rank is the outcome of the last Queen,
and one history entry is appended per Queen in order. -/
lemma process_queen_foldl (dealt : List (String × Card)) :
    ∀ (qs : List (String × Card)) (st : WildState),
      (qs.foldl (process_queen dealt) st).phase = st.phase ∧
      (qs.foldl (process_queen dealt) st).current_wild_rank =
        (qs.getLast?.elim st.current_wild_rank (queen_outcome dealt)) ∧
      (qs.foldl (process_queen dealt) st).wild_card_history =
        st.wild_card_history ++
          qs.map (fun q => ⟨st.phase, q.2, queen_outcome dealt q, q.1⟩) := by
  intro qs
  induction qs with
  | nil => intro st; simp
  | cons q qs ih =>
      intro st
      simp only [List.foldl_cons]
      obtain ⟨ihp, ihw, ihh⟩ := ih (process_queen dealt st q)
      refine ⟨ihp, ?_, ?_⟩
      · rw [ihw]
        cases qs with
        | nil => simp [process_queen]
        | cons y ys =>
            cases hys : (y :: ys).getLast? with
            | none => simp at hys
            | some z => simp [hys]
      · rw [ihh]
        simp [process_queen, List.append_assoc]

/-- list.index finds the true position of an element of a duplicate-free list. -/
lemma index_of_pair_getElem :
    ∀ (dealt : List (String × Card)), dealt.Nodup →
      ∀ (i : Nat) (hi : i < dealt.length), index_of_pair dealt dealt[i] = i := by
  intro dealt
  induction dealt with
  | nil => intro _ i hi; exact absurd hi (by simp)
  | cons y t ih =>
      intro hnd i hi
      cases i with
      | zero => simp [index_of_pair, List.findIdx_cons]
      | succ j =>
          have hj : j < t.length := by simpa using hi
          have hyt : y ∉ t := (List.nodup_cons.mp hnd).1
          have hne : y ≠ t[j] := fun he => hyt (he ▸ t.getElem_mem hj)
          have : (y :: t)[j + 1] = t[j] := by simp
          rw [this]
          simp only [index_of_pair, List.findIdx_cons]
          rw [show (decide (y = t[j])) = false from decide_eq_false hne]
          simp only [cond_false]
          have := ih (List.nodup_cons.mp hnd).2 j hj
          simp only [index_of_pair] at this
          omega

/-- The last Queen of the pass is the last element of the Queens filter. -/
lemma queens_filter_getLast (dealt : List (String × Card)) (i : Nat)
    (hi : i < dealt.length) (hq : dealt[i].2.rank = "Q")
    (hlast : ∀ j (_ : j < dealt.length), i < j → dealt[j].2.rank ≠ "Q") :
    (dealt.filter (fun pc => pc.2.rank == "Q")).getLast? = some dealt[i] := by
  have hsplit := List.take_append_drop (i + 1) dealt
  have hdrop : (dealt.drop (i + 1)).filter (fun pc => pc.2.rank == "Q") = [] := by
    rw [List.filter_eq_nil_iff]
    intro x hx
    obtain ⟨k, hk, hxe⟩ := List.mem_iff_getElem.mp hx
    have hk2 : i + 1 + k < dealt.length := by
      have := hk
      simp only [List.length_drop] at this
      omega
    have : x = dealt[i + 1 + k] := by
      rw [← hxe]
      simp [List.getElem_drop]
    rw [this]
    simpa using hlast (i + 1 + k) hk2 (by omega)
  have htake : dealt.take (i + 1) = dealt.take i ++ [dealt[i]] := by
    rw [List.take_succ]
    congr
    rw [List.getElem?_eq_getElem hi]
    rfl
  conv_lhs => rw [← hsplit]
  rw [List.filter_append, hdrop, List.append_nil, htake, List.filter_append]
  have : [dealt[i]].filter (fun pc => pc.2.rank == "Q") = [dealt[i]] := by
    simp [hq]
  rw [this, List.getLast?_concat]

/-- C4.  Follow-the-Queen propagation: for a pass of face-up dealt cards with
distinct cards containing at least one Queen, _check_for_queens leaves the
wild rank equal to the rank of the card dealt immediately after the last
Queen, or "Q" when that Queen was the last card of the pass, and appends one
history entry per Queen in deal order; on the deal order
[P1: 7 clubs, P2: Q hearts, P3: 9 diamonds] the resulting wild rank is "9",
not "7". -/
theorem follow_queen_propagation :
    (∀ (st : WildState) (dealt : List (String × Card)) (i : Nat)
        (hi : i < dealt.length),
      (dealt.map (fun pc => pc.2)).Nodup →
      dealt[i].2.rank = "Q" →
      (∀ j (_ : j < dealt.length), i < j → dealt[j].2.rank ≠ "Q") →
      ((check_for_queens st dealt).current_wild_rank =
          (if _h2 : i + 1 < dealt.length then dealt[i + 1].2.rank else "Q")) ∧
        (check_for_queens st dealt).wild_card_history =
          st.wild_card_history ++
            (dealt.filter (fun pc => pc.2.rank == "Q")).map
              (fun q => ⟨st.phase, q.2, queen_outcome dealt q, q.1⟩)) ∧
    ((check_for_queens ftq_state ftq_pass).current_wild_rank = "9" ∧
      (check_for_queens ftq_state ftq_pass).wild_card_history =
        [⟨"fourth_street", ⟨"Q", "hearts", "♥"⟩, "9", "P2"⟩]) := by
  constructor
  · intro st dealt i hi hcards hq hlast
    have hnd : dealt.Nodup := hcards.of_map
    have hmem : dealt[i] ∈ dealt.filter (fun pc => pc.2.rank == "Q") := by
      rw [List.mem_filter]
      exact ⟨dealt.getElem_mem hi, by simp [hq]⟩
    have hne : (dealt.filter (fun pc => pc.2.rank == "Q")).isEmpty = false := by
      rcases he : (dealt.filter (fun pc => pc.2.rank == "Q")) with _ | ⟨y, ys⟩
      · rw [he] at hmem; exact absurd hmem (by simp)
      · rw [he]; rfl
    have hout : queen_outcome dealt dealt[i] =
        (if _h2 : i + 1 < dealt.length then dealt[i + 1].2.rank else "Q") := by
      unfold queen_outcome
      rw [index_of_pair_getElem dealt hnd i hi]
      by_cases h2 : i + 1 < dealt.length
      · rw [if_pos (by omega), dif_pos h2, List.getElem?_eq_getElem h2]
        rfl
      · rw [if_neg (by omega), dif_neg h2]
    unfold check_for_queens
    rw [if_neg (by rw [hne]; exact Bool.false_ne_true)]
    obtain ⟨-, hw, hh⟩ := process_queen_foldl dealt
      (dealt.filter (fun pc => pc.2.rank == "Q")) st
    refine ⟨?_, hh⟩
    rw [hw, queens_filter_getLast dealt i hi hq hlast]
    exact hout
  · exact ⟨by decide, by decide⟩

/-- C4 witness: the general statement applied at the Queen in position 1 of
the concrete pass, whose following card has rank 9. -/
theorem follow_queen_propagation_witness :
    (check_for_queens ftq_state ftq_pass).current_wild_rank = "9" := by
  have h := (follow_queen_propagation.1 ftq_state ftq_pass 1 (by decide)
    (by decide) (by decide) (by decide)).1
  simpa using h

/-- Sum of the shares when every winner receives the extra unit. -/
lemma sum_shares_all (q r : Int) :
    ∀ n : Nat, (n : Int) ≤ r →
      ((List.range n).map (fun k : Nat => q + if (k : Int) < r then 1 else 0)).sum =
        n * (q + 1) := by
  intro n
  induction n with
  | zero => simp
  | succ m ih =>
      intro h
      rw [List.range_succ, List.map_append, List.sum_append,
        ih (by push_cast at h ⊢; omega)]
      simp only [List.map_cons, List.map_nil, List.sum_cons, List.sum_nil]
      rw [if_pos (by push_cast at h ⊢; omega)]
      push_cast
      ring

/-- Sum of the shares handed out by the enumerate loop: n shares of q plus r
extra units when 0 ≤ r ≤ n. -/
lemma sum_shares (q r : Int) :
    ∀ n : Nat, 0 ≤ r → r ≤ (n : Int) →
      ((List.range n).map (fun k : Nat => q + if (k : Int) < r then 1 else 0)).sum =
        n * q + r := by
  intro n
  induction n with
  | zero =>
      intro h0 hn
      simp only [List.range_zero, List.map_nil, List.sum_nil, Nat.cast_zero,
        zero_mul, zero_add]
      omega
  | succ m ih =>
      intro h0 hn
      by_cases hr : r ≤ (m : Int)
      · rw [List.range_succ, List.map_append, List.sum_append, ih h0 hr]
        simp only [List.map_cons, List.map_nil, List.sum_cons, List.sum_nil]
        rw [if_neg (by omega)]
        push_cast
        ring
      · have hreq : r = (m : Int) + 1 := by push_cast at hn; omega
        rw [sum_shares_all q r (m + 1) (by push_cast; omega), hreq]
        push_cast
        ring

/-- Amounts produced by the enumerate distribution loop. -/
lemma distribute_aux_amounts (q r : Int) (hf : ShowdownPlayer → String)
    (wt : String) :
    ∀ (l : List ShowdownPlayer) (i : Nat),
      (distribute_aux q r hf wt i l).map (fun e => e.amount) =
        (List.range l.length).map
          (fun k : Nat => q + if ((i + k : Nat) : Int) < r then 1 else 0) := by
  intro l
  induction l with
  | nil => intro i; simp [distribute_aux]
  | cons p rest ih =>
      intro i
      simp only [distribute_aux, List.map_cons, List.length_cons]
      rw [List.range_succ_eq_map, List.map_cons, List.map_map]
      congr 1
      rw [ih (i + 1)]
      apply List.map_congr_left
      intro k _
      have harith : i + 1 + k = i + (k + 1) := by omega
      simp only [Function.comp_apply, harith]

/-- Player ids produced by the distribution loop, in winner order. -/
lemma distribute_aux_ids (q r : Int) (hf : ShowdownPlayer → String) (wt : String) :
    ∀ (l : List ShowdownPlayer) (i : Nat),
      (distribute_aux q r hf wt i l).map (fun e => e.player_id) =
        l.map (fun p => p.id) := by
  intro l
  induction l with
  | nil => intro i; simp [distribute_aux]
  | cons p rest ih =>
      intro i
      simp only [distribute_aux, List.map_cons]
      rw [ih (i + 1)]

/-- distribute pays winner k exactly pot // n plus one extra unit iff
k < pot % n. -/
lemma distribute_amounts (pot : Int) (winners : List ShowdownPlayer)
    (hf : ShowdownPlayer → String) (wt : String) :
    (distribute pot winners hf wt).map (fun e => e.amount) =
      (List.range winners.length).map
        (fun k : Nat => Int.ediv pot (winners.length : Int) +
          if (k : Int) < Int.emod pot (winners.length : Int) then 1 else 0) := by
  unfold distribute
  rw [distribute_aux_amounts]
  apply List.map_congr_left
  intro k _
  simp

/-- distribute keeps the winner ids in player-list order. -/
lemma distribute_ids (pot : Int) (winners : List ShowdownPlayer)
    (hf : ShowdownPlayer → String) (wt : String) :
    (distribute pot winners hf wt).map (fun e => e.player_id) =
      winners.map (fun p => p.id) := by
  unfold distribute
  rw [distribute_aux_ids]

/-- Total of the distributed amounts is exactly the pot. -/
lemma distribute_sum (pot : Int) (winners : List ShowdownPlayer)
    (hf : ShowdownPlayer → String) (wt : String) (hw : winners ≠ []) :
    ((distribute pot winners hf wt).map (fun e => e.amount)).sum = pot := by
  have hn : 0 < winners.length := List.length_pos.mpr hw
  have hnz : ((winners.length : Int)) ≠ 0 := by positivity
  have hpos : (0 : Int) < (winners.length : Int) := by positivity
  rw [distribute_amounts,
    sum_shares _ _ winners.length
      (show (0 : Int) ≤ Int.emod pot (winners.length : Int) from
        Int.emod_nonneg pot hnz)
      (show Int.emod pot (winners.length : Int) ≤ (winners.length : Int) from
        le_of_lt (Int.emod_lt_of_pos pot hpos))]
  exact Int.ediv_add_emod pot (winners.length : Int)

/-- The high-hand fold never loses its collected tie list. -/
lemma high_foldl_some :
    ∀ (l : List ShowdownPlayer) (b : Nat × List Nat) (ps : List ShowdownPlayer),
      ps ≠ [] →
      ∃ b2 ps2, l.foldl high_step (some (b, ps)) = some (b2, ps2) ∧ ps2 ≠ [] := by
  intro l
  induction l with
  | nil => intro b ps h; exact ⟨b, ps, rfl, h⟩
  | cons p rest ih =>
      intro b ps h
      simp only [List.foldl_cons, high_step]
      split_ifs with h1 h2
      · exact ih _ [p] (by simp)
      · exact ih _ (ps ++ [p]) (by simp)
      · exact ih _ ps h

/-- At least one winner is collected from a nonempty active list. -/
lemma select_best_high_ne_nil (active : List ShowdownPlayer) (h : active ≠ []) :
    select_best_high active ≠ [] := by
  rcases active with _ | ⟨p, rest⟩
  · exact absurd rfl h
  · unfold select_best_high
    simp only [List.foldl_cons, high_step]
    obtain ⟨b2, ps2, heq, hne⟩ :=
      high_foldl_some rest (p.hand_rank, p.hand_tiebreakers) [p] (by simp)
    rw [heq]
    simpa using hne

/-- With at least two showdown players, determine_winners runs the comparison
and distribution branch. -/
lemma determine_winners_showdown (hi_lo : Bool) (pot : Int)
    (players : List ShowdownPlayer)
    (h2 : 2 ≤ (players.filter (fun p => !p.folded)).length) :
    determine_winners hi_lo pot players =
      showdown_split hi_lo pot (players.filter (fun p => !p.folded)) := by
  unfold determine_winners
  rcases hact : players.filter (fun p => !p.folded) with _ | ⟨a, _ | ⟨b, t⟩⟩
  · rw [hact] at h2; simp at h2
  · rw [hact] at h2; simp at h2
  · rw [hact]

/-- C1.  Pot-split conservation: with at least two non-folded players at
showdown (and the pot split among the N ≥ 1 tied best high hands), the
distributed amounts sum exactly to the pot, the entries follow the winner
list in fixed player order, winner k receives pot // N plus one extra unit
exactly when k < pot mod N, and so every winner receives pot // N or
pot // N + 1. -/
theorem pot_split_conservation (pot : Int) (players : List ShowdownPlayer)
    (h2 : 2 ≤ (players.filter (fun p => !p.folded)).length) :
    let winners := select_best_high (players.filter (fun p => !p.folded))
    let n : Int := (winners.length : Int)
    let res := determine_winners false pot players
    res.map (fun e => e.player_id) = winners.map (fun p => p.id) ∧
    (res.map (fun e => e.amount)).sum = pot ∧
    res.map (fun e => e.amount) =
      (List.range winners.length).map
        (fun k : Nat => Int.ediv pot n + if (k : Int) < Int.emod pot n then 1 else 0) ∧
    ∀ e ∈ res, e.amount = Int.ediv pot n ∨ e.amount = Int.ediv pot n + 1 := by
  intro winners n res
  have hwne : winners ≠ [] := by
    apply select_best_high_ne_nil
    intro hnil
    rw [hnil] at h2
    simp at h2
  have hres : res = distribute pot winners (fun p => p.hand_name) "high" := by
    show determine_winners false pot players = _
    rw [determine_winners_showdown false pot players h2]
    rfl
  refine ⟨?_, ?_, ?_, ?_⟩
  · rw [hres, distribute_ids]
  · rw [hres, distribute_sum pot winners _ _ hwne]
  · rw [hres, distribute_amounts]
  · intro e he
    have : e.amount ∈ res.map (fun e => e.amount) := List.mem_map_of_mem _ he
    rw [hres, distribute_amounts] at this
    obtain ⟨k, -, hk⟩ := List.mem_map.mp this
    by_cases hlt : (k : Int) < Int.emod pot n
    · right; rw [← hk, if_pos hlt]
    · left; rw [← hk, if_neg hlt]; ring

/-- C1 witness: pot 101 split between the two tied pair hands, first winner
in player order taking the extra chip, totals conserved. -/
theorem pot_split_conservation_witness :
    ((determine_winners false 101 tie_players).map (fun e => e.amount)).sum = 101 ∧
    determine_winners false 101 tie_players =
      [⟨0, 51, "One Pair", "high"⟩, ⟨1, 50, "One Pair", "high"⟩] :=
  ⟨(pot_split_conservation 101 tie_players (by decide)).2.1, by decide⟩

/-- Every entry written by the distribution loop carries its win_type. -/
lemma distribute_aux_wt (q r : Int) (hf : ShowdownPlayer → String) (wt : String) :
    ∀ (l : List ShowdownPlayer) (i : Nat),
      ∀ e ∈ distribute_aux q r hf wt i l, e.win_type = wt := by
  intro l
  induction l with
  | nil => intro i e he; simp [distribute_aux] at he
  | cons p rest ih =>
      intro i e he
      simp only [distribute_aux, List.mem_cons] at he
      rcases he with rfl | he
      · rfl
      · exact ih (i + 1) e he

/-- Merging updates the first matching high entry by adding the low amount
to it, so the total grows by exactly that amount. -/
lemma update_first_high_sum (eid : Nat) (amt : Int) :
    ∀ rs : List WinEntry,
      rs.any (fun r => r.player_id == eid && r.win_type == "high") = true →
      ((update_first_high eid amt rs).map (fun e => e.amount)).sum =
        (rs.map (fun e => e.amount)).sum + amt := by
  intro rs
  induction rs with
  | nil => intro h; simp at h
  | cons r rest ih =>
      intro h
      simp only [update_first_high]
      split_ifs with hc
      · simp only [List.map_cons, List.sum_cons]
        ring
      · simp only [List.map_cons, List.sum_cons]
        rw [Bool.not_eq_true] at hc
        simp only [List.any_cons, hc, Bool.false_or] at h
        rw [ih h]
        ring

/-- One merge step adds exactly the low winner's amount to the total. -/
lemma add_low_winner_sum (rs : List WinEntry) (e : WinEntry) :
    ((add_low_winner rs e).map (fun x => x.amount)).sum =
      (rs.map (fun x => x.amount)).sum + e.amount := by
  unfold add_low_winner
  split_ifs with h
  · exact update_first_high_sum e.player_id e.amount rs h
  · simp

/-- The low-half merge loop adds exactly the low amounts to the high total. -/
lemma foldl_add_low_sum :
    ∀ (lows init : List WinEntry),
      ((lows.foldl add_low_winner init).map (fun x => x.amount)).sum =
        (init.map (fun x => x.amount)).sum + (lows.map (fun x => x.amount)).sum := by
  intro lows
  induction lows with
  | nil => intro init; simp
  | cons e rest ih =>
      intro init
      simp only [List.foldl_cons, List.map_cons, List.sum_cons]
      rw [ih, add_low_winner_sum]
      ring

/-- Updating entries of another player leaves the entries of p untouched. -/
lemma update_first_high_filter_ne (eid : Nat) (amt : Int) (p : Nat)
    (hne : eid ≠ p) :
    ∀ rs : List WinEntry,
      (update_first_high eid amt rs).filter (fun r => r.player_id == p) =
        rs.filter (fun r => r.player_id == p) := by
  intro rs
  induction rs with
  | nil => rfl
  | cons r rest ih =>
      simp only [update_first_high]
      split_ifs with hc
      · have hid : r.player_id = eid := by
          have h1 := (Bool.and_eq_true _ _).mp hc
          exact eq_of_beq h1.1
        simp only [List.filter_cons]
        rw [if_neg (by simp [hid, hne]), if_neg (by simp [hid, hne])]
      · simp only [List.filter_cons]
        rw [ih]

/-- Merging a low entry of another player leaves the entries of p untouched. -/
lemma add_low_winner_filter_ne (rs : List WinEntry) (e : WinEntry) (p : Nat)
    (hne : e.player_id ≠ p) :
    (add_low_winner rs e).filter (fun r => r.player_id == p) =
      rs.filter (fun r => r.player_id == p) := by
  unfold add_low_winner
  split_ifs with h
  · exact update_first_high_filter_ne e.player_id e.amount p hne rs
  · rw [List.filter_append]
    have hsingle : [e].filter (fun r => r.player_id == p) = [] := by
      simp [hne]
    rw [hsingle, List.append_nil]

/-- Merging low entries of other players leaves the entries of p untouched. -/
lemma foldl_add_low_filter_ne :
    ∀ (lows init : List WinEntry) (p : Nat),
      (∀ e ∈ lows, e.player_id ≠ p) →
      (lows.foldl add_low_winner init).filter (fun r => r.player_id == p) =
        init.filter (fun r => r.player_id == p) := by
  intro lows
  induction lows with
  | nil => intro init p _; rfl
  | cons e rest ih =>
      intro init p h
      simp only [List.foldl_cons]
      rw [ih _ p (fun x hx => h x (List.mem_cons_of_mem _ hx)),
        add_low_winner_filter_ne _ _ _ (h e (List.mem_cons_self e rest))]

/-- When p owns exactly one results entry, of win_type high, the update turns
it into the combined scoop entry. -/
lemma update_first_high_filter_scoop (p : Nat) (amt hp : Int) (hname : String) :
    ∀ rs : List WinEntry,
      rs.filter (fun r => r.player_id == p) = [⟨p, hp, hname, "high"⟩] →
      (update_first_high p amt rs).filter (fun r => r.player_id == p) =
        [⟨p, hp + amt, hname, "SCOOP (high + low)"⟩] := by
  intro rs
  induction rs with
  | nil => intro h; simp at h
  | cons r rest ih =>
      intro h
      by_cases hrp : r.player_id = p
      · have hbeq : (r.player_id == p) = true := by simp [hrp]
        rw [List.filter_cons, if_pos hbeq] at h
        obtain ⟨rfl, hrest⟩ := List.cons_eq_cons.mp h
        have hcond : ((⟨p, hp, hname, "high"⟩ : WinEntry).player_id == p &&
            (⟨p, hp, hname, "high"⟩ : WinEntry).win_type == "high") = true := by
          simp
        simp only [update_first_high]
        rw [if_pos hcond, List.filter_cons, if_pos (by simp), hrest]
      · have hbeq : (r.player_id == p) = false := by simp [hrp]
        rw [List.filter_cons, if_neg (by simp [hbeq])] at h
        have hcond : ¬ (r.player_id == p && r.win_type == "high") = true := by
          simp [hbeq]
        simp only [update_first_high]
        rw [if_neg hcond, List.filter_cons, if_neg (by simp [hbeq])]
        exact ih h

/-- Merging the low entry of a player that already holds the single high
entry produces the single combined scoop entry. -/
lemma add_low_winner_scoop (rs : List WinEntry) (p : Nat) (hp lp : Int)
    (hname lname : String)
    (h : rs.filter (fun r => r.player_id == p) = [⟨p, hp, hname, "high"⟩]) :
    (add_low_winner rs ⟨p, lp, lname, "low"⟩).filter
        (fun r => r.player_id == p) =
      [⟨p, hp + lp, hname, "SCOOP (high + low)"⟩] := by
  have hmem : (⟨p, hp, hname, "high"⟩ : WinEntry) ∈ rs := by
    apply List.mem_of_mem_filter (p := fun r => r.player_id == p)
    rw [h]
    exact List.mem_cons_self _ _
  unfold add_low_winner
  rw [if_pos]
  · exact update_first_high_filter_scoop p lp hp hname rs h
  · rw [List.any_eq_true]
    exact ⟨_, hmem, by simp⟩

/-- A list whose p-filter is a single entry splits around that entry. -/
lemma filter_eq_single_decomp (p : Nat) (x : WinEntry) :
    ∀ l : List WinEntry, l.filter (fun r => r.player_id == p) = [x] →
      ∃ l1 l2, l = l1 ++ x :: l2 ∧
        l1.filter (fun r => r.player_id == p) = [] ∧
        l2.filter (fun r => r.player_id == p) = [] := by
  intro l
  induction l with
  | nil => intro h; simp at h
  | cons r rest ih =>
      intro h
      by_cases hrp : (r.player_id == p) = true
      · simp only [List.filter_cons, if_pos hrp] at h
        obtain ⟨rfl, hrest⟩ := List.cons_eq_cons.mp h
        exact ⟨[], rest, rfl, rfl, hrest⟩
      · simp only [List.filter_cons, if_neg hrp] at h
        obtain ⟨l1, l2, rfl, h1, h2⟩ := ih h
        refine ⟨r :: l1, l2, rfl, ?_, h2⟩
        simp only [List.filter_cons, if_neg hrp, h1]

/-- Scoop lemma: a player owning the single high entry and the single low
entry ends with one combined scoop entry holding the sum of both shares. -/
lemma foldl_scoop (init lows : List WinEntry) (p : Nat) (hp lp : Int)
    (hname lname : String)
    (hi : init.filter (fun r => r.player_id == p) = [⟨p, hp, hname, "high"⟩])
    (hl : lows.filter (fun r => r.player_id == p) = [⟨p, lp, lname, "low"⟩]) :
    (lows.foldl add_low_winner init).filter (fun r => r.player_id == p) =
      [⟨p, hp + lp, hname, "SCOOP (high + low)"⟩] := by
  obtain ⟨l1, l2, rfl, h1, h2⟩ := filter_eq_single_decomp p _ lows hl
  have hne1 : ∀ e ∈ l1, e.player_id ≠ p := by
    intro e he heq
    have := List.filter_eq_nil_iff.mp h1 e he
    simp [heq] at this
  have hne2 : ∀ e ∈ l2, e.player_id ≠ p := by
    intro e he heq
    have := List.filter_eq_nil_iff.mp h2 e he
    simp [heq] at this
  rw [List.foldl_append, List.foldl_cons]
  rw [foldl_add_low_filter_ne l2 _ p hne2]
  exact add_low_winner_scoop _ p hp lp hname lname
    ((foldl_add_low_filter_ne l1 init p hne1).trans hi)

/-- Branch shape of showdown_split in Hi-Lo mode. -/
lemma showdown_split_true_cases (pot : Int) (active : List ShowdownPlayer) :
    (select_best_low active = [] →
      showdown_split true pot active =
        distribute pot (select_best_high active) (fun q => q.hand_name)
          "high (scoops - no qualifying low)") ∧
    (select_best_low active ≠ [] →
      showdown_split true pot active =
        (distribute (pot - Int.ediv pot 2) (select_best_low active)
            (fun q => q.low_name) "low").foldl add_low_winner
          (distribute (Int.ediv pot 2) (select_best_high active)
            (fun q => q.hand_name) "high")) := by
  constructor
  · intro hbl
    simp only [showdown_split, Bool.not_true, Bool.false_eq_true, if_false, hbl,
      List.isEmpty_nil, if_true]
  · intro hbl
    have hne : (select_best_low active).isEmpty = false := by
      rcases hbl' : select_best_low active with _ | ⟨a, t⟩
      · exact absurd hbl' hbl
      · rfl
    simp only [showdown_split, Bool.not_true, Bool.false_eq_true, if_false, hne,
      Bool.false_eq_true, if_false]

/-- C5.  Hi-Lo pot distribution with at least two showdown players: when no
player qualifies for low, the high winners receive the entire pot; otherwise
the pot splits into a high half pot // 2 and a low half pot - pot // 2 (the
low half absorbing the extra unit on an odd pot), the distributed amounts sum
exactly to the pot, and a player holding both the single best high entry and
the single best low entry ends with one combined SCOOP entry whose amount is
the high share plus the low share, not two separate entries. -/
theorem hi_lo_pot_distribution (pot : Int) (players : List ShowdownPlayer)
    (h2 : 2 ≤ (players.filter (fun q => !q.folded)).length) :
    let active := players.filter (fun q => !q.folded)
    let best_high := select_best_high active
    let best_low := select_best_low active
    let high_entries :=
      distribute (Int.ediv pot 2) best_high (fun q => q.hand_name) "high"
    let low_entries :=
      distribute (pot - Int.ediv pot 2) best_low (fun q => q.low_name) "low"
    let res := determine_winners true pot players
    (best_low = [] →
      (res.map (fun e => e.amount)).sum = pot ∧
      res.map (fun e => e.player_id) = best_high.map (fun q => q.id) ∧
      ∀ e ∈ res, e.win_type = "high (scoops - no qualifying low)") ∧
    (best_low ≠ [] →
      res = low_entries.foldl add_low_winner high_entries ∧
      (res.map (fun e => e.amount)).sum = pot ∧
      (high_entries.map (fun e => e.amount)).sum = Int.ediv pot 2 ∧
      (low_entries.map (fun e => e.amount)).sum = pot - Int.ediv pot 2) ∧
    (∀ (pid : Nat) (hp lp : Int) (hname lname : String),
      best_low ≠ [] →
      high_entries.filter (fun r => r.player_id == pid) =
        [⟨pid, hp, hname, "high"⟩] →
      low_entries.filter (fun r => r.player_id == pid) =
        [⟨pid, lp, lname, "low"⟩] →
      res.filter (fun r => r.player_id == pid) =
        [⟨pid, hp + lp, hname, "SCOOP (high + low)"⟩]) := by
  intro active best_high best_low high_entries low_entries res
  have hact_ne : active ≠ [] := by
    intro hnil
    have : (players.filter (fun q => !q.folded)).length = 0 := by
      show active.length = 0
      rw [hnil]; rfl
    omega
  have hbh_ne : best_high ≠ [] := select_best_high_ne_nil active hact_ne
  have hsplit : res = showdown_split true pot active :=
    determine_winners_showdown true pot players h2
  refine ⟨?_, ?_, ?_⟩
  · intro hbl
    have hres : res = distribute pot best_high (fun q => q.hand_name)
        "high (scoops - no qualifying low)" := by
      rw [hsplit, (showdown_split_true_cases pot active).1 hbl]
    refine ⟨?_, ?_, ?_⟩
    · rw [hres, distribute_sum pot best_high _ _ hbh_ne]
    · rw [hres, distribute_ids]
    · intro e he
      rw [hres] at he
      exact distribute_aux_wt _ _ _ _ best_high 0 e he
  · intro hbl
    have hres : res = low_entries.foldl add_low_winner high_entries := by
      rw [hsplit, (showdown_split_true_cases pot active).2 hbl]
    refine ⟨hres, ?_, ?_, ?_⟩
    · rw [hres, foldl_add_low_sum,
        distribute_sum _ best_high _ _ hbh_ne,
        distribute_sum _ best_low _ _ hbl]
      ring
    · exact distribute_sum _ best_high _ _ hbh_ne
    · exact distribute_sum _ best_low _ _ hbl
  · intro pid hp lp hname lname hbl hhf hlf
    have hres : res = low_entries.foldl add_low_winner high_entries := by
      rw [hsplit, (showdown_split_true_cases pot active).2 hbl]
    rw [hres]
    exact foldl_scoop high_entries low_entries pid hp lp hname lname hhf hlf

/-- C5 witness: pot 101 with player 0 scooping both halves produces the single
combined entry of 50 + 51 = 101 chips; with nobody low-qualified the high
winner takes the whole pot. -/
theorem hi_lo_pot_distribution_witness :
    determine_winners true 101 scoop_players =
      [⟨0, 101, "Four of a Kind", "SCOOP (high + low)"⟩] ∧
    ((determine_winners true 101 scoop_players).map (fun e => e.amount)).sum =
      101 ∧
    (determine_winners true 101 scoop_players).filter
        (fun r => r.player_id == 0) =
      [⟨0, 50 + 51, "Four of a Kind", "SCOOP (high + low)"⟩] := by
  refine ⟨by decide, ?_, ?_⟩
  · exact ((hi_lo_pot_distribution 101 scoop_players (by decide)).2.1
      (by decide)).2.1
  · exact (hi_lo_pot_distribution 101 scoop_players (by decide)).2.2 0 50 51
      "Four of a Kind" "The Wheel (A-2-3-4-5)" (by decide) (by decide) (by decide)

/-- Inserting keeps the same multiset of elements. -/
lemma insert_le_perm {α : Type} (le : α → α → Bool) (x : α) :
    ∀ l : List α, (insert_le le x l).Perm (x :: l) := by
  intro l
  induction l with
  | nil => exact List.Perm.refl _
  | cons y ys ih =>
      simp only [insert_le]
      split_ifs
      · exact List.Perm.refl _
      · exact (ih.cons y).trans (List.Perm.swap x y ys)

/-- Insertion sort keeps the same multiset of elements. -/
lemma sort_by_perm {α : Type} (le : α → α → Bool) :
    ∀ l : List α, (sort_by le l).Perm l := by
  intro l
  induction l with
  | nil => exact List.Perm.refl _
  | cons y ys ih =>
      unfold sort_by at *
      exact (insert_le_perm le y _).trans (ih.cons y)

/-- Inserting into a descending list keeps it descending. -/
lemma insert_le_sorted_desc (x : Nat) :
    ∀ l : List Nat, l.Pairwise (fun a b => b ≤ a) →
      (insert_le (fun a b => decide (b ≤ a)) x l).Pairwise (fun a b => b ≤ a) := by
  intro l
  induction l with
  | nil => intro _; simp [insert_le]
  | cons y ys ih =>
      intro hp
      simp only [insert_le]
      split_ifs with hxy
      · have hyx : y ≤ x := of_decide_eq_true hxy
        constructor
        · intro b hb
          rcases List.mem_cons.mp hb with rfl | hb
          · exact hyx
          · exact le_trans ((List.pairwise_cons.mp hp).1 b hb) hyx
        · exact hp
      · have hylt : ¬ y ≤ x := by simpa using hxy
        have hxley : x ≤ y := le_of_not_le hylt
        constructor
        · intro b hb
          rcases List.mem_cons.mp
              ((insert_le_perm _ x ys).mem_iff.mp hb) with rfl | hb
          · exact hxley
          · exact (List.pairwise_cons.mp hp).1 b hb
        · exact ih (List.pairwise_cons.mp hp).2

/-- sort_desc yields a descending list. -/
lemma sort_desc_sorted : ∀ l : List Nat,
    (sort_desc l).Pairwise (fun a b => b ≤ a) := by
  intro l
  induction l with
  | nil => simp [sort_desc, sort_by]
  | cons y ys ih =>
      unfold sort_desc sort_by at *
      exact insert_le_sorted_desc y _ ih

/-- The first-occurrence fold of a duplicate-free accumulator stays
duplicate-free. -/
lemma first_occs_nodup_aux {α : Type} [DecidableEq α] :
    ∀ (l acc : List α), acc.Nodup →
      (l.foldl (fun acc x => if x ∈ acc then acc else acc ++ [x]) acc).Nodup := by
  intro l
  induction l with
  | nil => intro acc h; exact h
  | cons y ys ih =>
      intro acc h
      simp only [List.foldl_cons]
      by_cases hy : y ∈ acc
      · rw [if_pos hy]; exact ih acc h
      · rw [if_neg hy]
        exact ih _ (by simp [List.nodup_append, h, hy])

/-- first_occs is duplicate-free. -/
lemma first_occs_nodup {α : Type} [DecidableEq α] (l : List α) :
    (first_occs l).Nodup :=
  first_occs_nodup_aux l [] (by simp)

/-- first_occs is a permutation of dedup. -/
lemma first_occs_perm_dedup {α : Type} [DecidableEq α] (l : List α) :
    (first_occs l).Perm l.dedup := by
  apply List.perm_of_nodup_nodup_toFinset_eq (first_occs_nodup l) l.nodup_dedup
  ext a
  simp [List.mem_toFinset, mem_first_occs, List.mem_dedup]

/-- len(set(l)) equals len(l) exactly when l has no duplicates. -/
lemma first_occs_length_eq_iff {α : Type} [DecidableEq α] (l : List α) :
    (first_occs l).length = l.length ↔ l.Nodup := by
  rw [(first_occs_perm_dedup l).length_eq]
  constructor
  · intro h
    have := l.dedup_sublist.eq_of_length h
    rw [← this]
    exact l.nodup_dedup
  · intro h
    rw [List.dedup_eq_self.mpr h]

/-- Python max over a fold: bounded iff the seed and every element are. -/
lemma foldl_max_le_iff :
    ∀ (l : List Nat) (a k : Nat),
      l.foldl max a ≤ k ↔ a ≤ k ∧ ∀ v ∈ l, v ≤ k := by
  intro l
  induction l with
  | nil => simp
  | cons x xs ih =>
      intro a k
      simp only [List.foldl_cons]
      rw [ih]
      simp only [max_le_iff, List.mem_cons]
      constructor
      · rintro ⟨⟨h1, h2⟩, h3⟩
        refine ⟨h1, ?_⟩
        rintro v (rfl | hv)
        · exact h2
        · exact h3 v hv
      · rintro ⟨h1, h2⟩
        exact ⟨⟨h1, h2 x (Or.inl rfl)⟩, fun v hv => h2 v (Or.inr hv)⟩

/-- Low values are at least 1 (Ace counts as 1). -/
lemma card_low_value_pos (c : Card) : 1 ≤ card_low_value c := by
  unfold card_low_value
  cases hf : LOW_RANK_VALUES.find? (fun kv => kv.1 == c.rank) with
  | none => simp
  | some kv =>
      have hmem := List.mem_of_find?_eq_some hf
      have hall : ∀ x ∈ LOW_RANK_VALUES, 1 ≤ x.2 := by decide
      simpa using hall kv hmem

/-- Two cards with the same 8-or-better low value share the same rank. -/
lemma card_low_value_inj (c d : Card) (hc : card_low_value c ≤ 8)
    (hd : card_low_value d ≤ 8) (h : card_low_value c = card_low_value d) :
    c.rank = d.rank := by
  unfold card_low_value at hc hd h
  cases hfc : LOW_RANK_VALUES.find? (fun kv => kv.1 == c.rank) with
  | none => rw [hfc] at hc; simp at hc
  | some kv =>
      cases hfd : LOW_RANK_VALUES.find? (fun kv => kv.1 == d.rank) with
      | none => rw [hfd] at hd; simp at hd
      | some kv2 =>
          rw [hfc, hfd] at h
          have hmc := List.mem_of_find?_eq_some hfc
          have hmd := List.mem_of_find?_eq_some hfd
          have hpc := List.find?_some hfc
          have hpd := List.find?_some hfd
          have hkey : ∀ x ∈ LOW_RANK_VALUES, ∀ y ∈ LOW_RANK_VALUES,
              x.2 = y.2 → x.1 = y.1 := by decide
          have h1 : kv.1 = kv2.1 := hkey kv hmc kv2 hmd (by simpa using h)
          have h2 : kv.1 = c.rank := by simpa using hpc
          have h3 : kv2.1 = d.rank := by simpa using hpd
          rw [← h2, h1, h3]

/-- Distinct ranks of an 8-or-better hand have distinct low values. -/
lemma low_values_nodup :
    ∀ cards : List Card, (cards.map (fun c => c.rank)).Nodup →
      (∀ c ∈ cards, card_low_value c ≤ 8) →
      (cards.map card_low_value).Nodup := by
  intro cards
  induction cards with
  | nil => intro _ _; simp
  | cons c rest ih =>
      intro hnd h8
      simp only [List.map_cons, List.nodup_cons] at hnd ⊢
      obtain ⟨hr, hrest⟩ := hnd
      refine ⟨?_, ih hrest (fun d hd => h8 d (List.mem_cons_of_mem _ hd))⟩
      intro hmem
      obtain ⟨d, hd, hde⟩ := List.mem_map.mp hmem
      have hrank : c.rank = d.rank :=
        card_low_value_inj c d (h8 c (List.mem_cons_self c rest))
          (h8 d (List.mem_cons_of_mem _ hd)) hde.symm
      exact hr (hrank ▸ List.mem_map_of_mem (fun c => c.rank) hd)

/-- A strictly decreasing 5-tuple of values at least 1 is never below
(5, 4, 3, 2, 1) in the Python tuple order. -/
lemma sorted_five_min (vs : List Nat) (hlen : vs.length = 5)
    (hsorted : vs.Pairwise (fun a b => b ≤ a)) (hnd : vs.Nodup)
    (hpos : ∀ v ∈ vs, 1 ≤ v) :
    py_list_lt vs [5, 4, 3, 2, 1] = false := by
  rcases vs with _ | ⟨a, _ | ⟨b, _ | ⟨c, _ | ⟨d, _ | ⟨e, _ | ⟨f, t⟩⟩⟩⟩⟩⟩ <;>
    simp only [List.length_nil, List.length_cons] at hlen <;> try omega
  simp at hsorted hnd
  have h1 := hpos a (by simp)
  have h2 := hpos b (by simp)
  have h3 := hpos c (by simp)
  have h4 := hpos d (by simp)
  have h5 := hpos e (by simp)
  simp only [py_list_lt]
  rw [if_neg (show ¬ a < 5 by omega)]
  rcases Nat.lt_or_ge 5 a with h | h
  · rw [if_pos h]
  · rw [if_neg (by omega), if_neg (show ¬ b < 4 by omega)]
    rcases Nat.lt_or_ge 4 b with hb | hb
    · rw [if_pos hb]
    · rw [if_neg (by omega), if_neg (show ¬ c < 3 by omega)]
      rcases Nat.lt_or_ge 3 c with hc | hc
      · rw [if_pos hc]
      · rw [if_neg (by omega), if_neg (show ¬ d < 2 by omega)]
        rcases Nat.lt_or_ge 2 d with hd | hd
        · rw [if_pos hd]
        · rw [if_neg (by omega), if_neg (show ¬ e < 1 by omega)]
          rcases Nat.lt_or_ge 1 e with he | he
          · rw [if_pos he]
          · rw [if_neg (by omega)]

/-- C6.  Low-hand qualification: a 5-card hand qualifies for low exactly when
its five ranks are distinct and every low value (Ace = 1) is at most 8 —
straights and flushes never disqualify since suits are never examined; the
wheel A-2-3-4-5 of any suits qualifies with value tuple (5, 4, 3, 2, 1); and
that tuple is minimal among all qualifying hands in the Python tuple order. -/
theorem low_hand_qualification :
    (∀ cards : List Card, cards.length = 5 →
      ((evaluate_low cards).1 = true ↔
        (cards.map (fun c => c.rank)).Nodup ∧
          ∀ c ∈ cards, card_low_value c ≤ 8)) ∧
    (∀ s1 s2 s3 s4 s5 y1 y2 y3 y4 y5 : String,
      evaluate_low [⟨"A", s1, y1⟩, ⟨"2", s2, y2⟩, ⟨"3", s3, y3⟩,
          ⟨"4", s4, y4⟩, ⟨"5", s5, y5⟩] =
        (true, [5, 4, 3, 2, 1], "The Wheel (A-2-3-4-5)")) ∧
    (∀ cards : List Card, cards.length = 5 → (evaluate_low cards).1 = true →
      py_list_lt (evaluate_low cards).2.1 [5, 4, 3, 2, 1] = false) := by
  have hlen5 : ∀ cards : List Card, cards.length = 5 →
      (cards.map (fun c => c.rank)).length = 5 := by
    intro cards h
    rw [List.length_map, h]
  have key : ∀ cards : List Card, cards.length = 5 →
      ((evaluate_low cards).1 = true ↔
        (cards.map (fun c => c.rank)).Nodup ∧
          ∀ c ∈ cards, card_low_value c ≤ 8) := by
    intro cards hlen
    have hiff1 : (first_occs (cards.map (fun c => c.rank))).length = 5 ↔
        (cards.map (fun c => c.rank)).Nodup := by
      rw [← hlen5 cards hlen]
      exact first_occs_length_eq_iff _
    have hiff2 : (cards.map card_low_value).foldl max 0 ≤ 8 ↔
        ∀ c ∈ cards, card_low_value c ≤ 8 := by
      rw [foldl_max_le_iff]
      simp only [List.mem_map]
      constructor
      · rintro ⟨-, h⟩ c hc
        exact h _ ⟨c, hc, rfl⟩
      · rintro h
        exact ⟨by omega, by rintro v ⟨c, hc, rfl⟩; exact h c hc⟩
    unfold evaluate_low
    rw [if_neg (by omega)]
    dsimp only
    split_ifs with hset hmax
    · simp only [Bool.false_eq_true, false_iff]
      rintro ⟨hnod, -⟩
      exact hset (hiff1.mpr hnod)
    · simp only [Bool.false_eq_true, false_iff]
      rintro ⟨-, h8⟩
      have := hiff2.mpr h8
      omega
    · simp only [true_iff]
      exact ⟨hiff1.mp (by omega), hiff2.mp (by omega)⟩
  refine ⟨key, ?_, ?_⟩
  · intro s1 s2 s3 s4 s5 y1 y2 y3 y4 y5
    rfl
  · intro cards hlen hq
    obtain ⟨hnod, h8⟩ := (key cards hlen).mp hq
    have hvals : (evaluate_low cards).2.1 =
        sort_desc (cards.map card_low_value) := by
      unfold evaluate_low
      rw [if_neg (by omega)]
      dsimp only
      rw [if_neg (by
        rw [not_not, ← hlen5 cards hlen]
        exact first_occs_length_eq_iff _ |>.mpr hnod)]
      rw [if_neg (by
        have : (cards.map card_low_value).foldl max 0 ≤ 8 := by
          rw [foldl_max_le_iff]
          refine ⟨by omega, ?_⟩
          rintro v hv
          obtain ⟨c, hc, rfl⟩ := List.mem_map.mp hv
          exact h8 c hc
        omega)]
    rw [hvals]
    apply sorted_five_min
    · rw [show sort_desc (cards.map card_low_value) =
          sort_by (fun a b => decide (b ≤ a)) (cards.map card_low_value) from rfl,
        (sort_by_perm _ _).length_eq, List.length_map, hlen]
    · exact sort_desc_sorted _
    · exact ((sort_by_perm _ _).nodup_iff).mpr (low_values_nodup cards hnod h8)
    · intro v hv
      have := (sort_by_perm _ _).mem_iff.mp hv
      obtain ⟨c, -, rfl⟩ := List.mem_map.mp this
      exact card_low_value_pos c

/-- C6 witness: the all-clubs wheel qualifies with the minimal tuple, and the
minimality statement applies to it. -/
theorem low_hand_qualification_witness :
    evaluate_low [⟨"A", "clubs", "♣"⟩, ⟨"2", "clubs", "♣"⟩, ⟨"3", "clubs", "♣"⟩,
        ⟨"4", "clubs", "♣"⟩, ⟨"5", "clubs", "♣"⟩] =
      (true, [5, 4, 3, 2, 1], "The Wheel (A-2-3-4-5)") ∧
    py_list_lt
      (evaluate_low [⟨"A", "clubs", "♣"⟩, ⟨"2", "clubs", "♣"⟩,
          ⟨"3", "clubs", "♣"⟩, ⟨"4", "clubs", "♣"⟩, ⟨"5", "clubs", "♣"⟩]).2.1
      [5, 4, 3, 2, 1] = false :=
  ⟨low_hand_qualification.2.1 "clubs" "clubs" "clubs" "clubs" "clubs"
      "♣" "♣" "♣" "♣" "♣",
   low_hand_qualification.2.2
     [⟨"A", "clubs", "♣"⟩, ⟨"2", "clubs", "♣"⟩, ⟨"3", "clubs", "♣"⟩,
      ⟨"4", "clubs", "♣"⟩, ⟨"5", "clubs", "♣"⟩] (by decide) (by decide)⟩

/-- C9 counterexample: in the stud snapshot the claimed "until showdown or
reveal flag" visibility rule fails — at showdown, with the reveal flag unset,
the other player's down cards are still replaced by placeholders. -/
theorem snapshot_showdown_counterexample :
    snap_game.phase = "showdown" ∧
    snap_p1.cards_revealed = false ∧
    ((stud_get_state snap_game (some "sessA")).players.map
        (fun v => v.down_cards))[1]? = some [back_card, back_card] ∧
    snap_p1.down_cards ≠ [back_card, back_card] := by decide

/-- Views of hidden-variant players coincide. -/
lemma stud_player_view_hidden_variant (pid : Option Nat) (dealer idx : Nat)
    (p q : StudPlayer) (h : hidden_variant pid p q) :
    stud_player_view pid dealer idx p = stud_player_view pid dealer idx q := by
  obtain ⟨hid, hname, hchips, hbet, hfold, hallin, hhuman, hwin, hup, hrev,
    hhand, hlow, hlen, hvis⟩ := h
  unfold stud_player_view
  by_cases hc : (some p.id == pid || p.cards_revealed) = true
  · rw [if_pos hc, if_pos (by rw [← hid, ← hrev]; exact hc)]
    have hdown : p.down_cards = q.down_cards := by
      apply hvis
      rcases Bool.or_eq_true_iff.mp hc with h | h
      · exact Or.inl (by simpa using h)
      · exact Or.inr h
    simp [hid, hname, hchips, hbet, hfold, hallin, hhuman, hwin, hup, hrev,
      hhand, hlow, hdown]
  · rw [if_neg hc, if_neg (by rw [← hid, ← hrev]; exact hc)]
    simp [hid, hname, hchips, hbet, hfold, hallin, hhuman, hwin, hup, hrev,
      hlen]

/-- The players-state loop maps hidden-variant player lists to the same view
list. -/
lemma stud_players_state_hidden_variant (pid : Option Nat) (dealer : Nat) :
    ∀ (ps qs : List StudPlayer), List.Forall₂ (hidden_variant pid) ps qs →
      ∀ i, stud_players_state pid dealer i ps =
        stud_players_state pid dealer i qs := by
  intro ps qs h
  induction h with
  | nil => intro i; rfl
  | cons hpq _ ih =>
      intro i
      simp only [stud_players_state]
      rw [stud_player_view_hidden_variant pid dealer i _ _ hpq, ih (i + 1)]

/-- Hidden-variant lists expose the same player ids position by position. -/
lemma forall₂_getElem?_id (pid : Option Nat) :
    ∀ (ps qs : List StudPlayer), List.Forall₂ (hidden_variant pid) ps qs →
      ∀ i : Nat, (ps[i]?).map (fun p : StudPlayer => p.id) =
        (qs[i]?).map (fun p : StudPlayer => p.id) := by
  intro ps qs h
  induction h with
  | nil => intro i; rfl
  | cons hpq _ ih =>
      intro i
      cases i with
      | zero => simp [hpq.1]
      | succ j => simpa using ih j

/-- C9 amended.  Snapshot card hiding, as the code implements it: the stud
snapshot always returns every player's up cards verbatim; a player's own
down cards are always visible to them; another player's down cards are
returned verbatim once that player's cards_revealed flag is set, and
otherwise — showdown or not — are replaced by count-preserving placeholder
cards with the stored hand and low results omitted; consequently the
snapshot for a viewer does not depend on the identities of other players'
unrevealed down cards; and in the base game, hole cards of others are
visible exactly at showdown (the reveal flag is not consulted there). -/
theorem snapshot_card_hiding (pid : Option Nat) (dealer idx : Nat)
    (p : StudPlayer) :
    ((stud_player_view pid dealer idx p).up_cards = p.up_cards) ∧
    (some p.id = pid → (stud_player_view pid dealer idx p).down_cards =
      p.down_cards) ∧
    (some p.id ≠ pid → p.cards_revealed = false →
      (stud_player_view pid dealer idx p).down_cards =
          List.replicate p.down_cards.length back_card ∧
        (stud_player_view pid dealer idx p).hand_result = none ∧
        (stud_player_view pid dealer idx p).low_result = none) ∧
    (p.cards_revealed = true → (stud_player_view pid dealer idx p).down_cards =
      p.down_cards) ∧
    (∀ (g : StudGameState) (sess : Option String) (i : Nat),
      i < g.players.length →
      (stud_get_state g sess).players[i]? =
        some (stud_player_view (session_player g.player_sessions sess)
          g.dealer_position i (g.players[i]?.getD p))) ∧
    (∀ (g : StudGameState) (qs : List StudPlayer) (sess : Option String),
      List.Forall₂ (hidden_variant (session_player g.player_sessions sess))
        g.players qs →
      stud_get_state g sess = stud_get_state { g with players := qs } sess) ∧
    (∀ (bpid : Option Nat) (phase : String) (bdealer bidx : Nat)
        (bp : BasePlayer),
      (base_player_view bpid phase bdealer bidx bp).hole_cards =
        (if some bp.id = bpid ∨ phase = "showdown" then bp.hole_cards
         else List.replicate bp.hole_cards.length back_card)) := by
  have hget : ∀ (vpid : Option Nat) (vdealer : Nat) (ps : List StudPlayer)
      (start i : Nat), i < ps.length →
      (stud_players_state vpid vdealer start ps)[i]? =
        some (stud_player_view vpid vdealer (start + i) (ps[i]?.getD p)) := by
    intro vpid vdealer ps
    induction ps with
    | nil => intro start i hi; simp at hi
    | cons q rest ih =>
        intro start i hi
        cases i with
        | zero => simp [stud_players_state]
        | succ j =>
            have hj : j < rest.length := by simpa using hi
            simp only [stud_players_state, List.getElem?_cons_succ]
            rw [ih (start + 1) j hj]
            congr 2
            omega
  refine ⟨?_, ?_, ?_, ?_, ?_, ?_, ?_⟩
  · unfold stud_player_view
    dsimp only
    split_ifs <;> rfl
  · intro hown
    unfold stud_player_view
    rw [if_pos (by simp [hown])]
  · intro hother hrev
    unfold stud_player_view
    rw [if_neg (by
      simp only [Bool.or_eq_true, beq_iff_eq, hrev]
      rintro (h | h)
      · exact hother h
      · exact Bool.false_ne_true h)]
    exact ⟨rfl, rfl, rfl⟩
  · intro hrev
    unfold stud_player_view
    rw [if_pos (by simp [hrev])]
  · intro g sess i hi
    have := hget (session_player g.player_sessions sess) g.dealer_position
      g.players 0 i hi
    simpa using this
  · intro g qs sess h
    have hps := stud_players_state_hidden_variant
      (session_player g.player_sessions sess) g.dealer_position g.players qs h 0
    have hlen := h.length_eq
    have hids := forall₂_getElem?_id _ g.players qs h
    unfold stud_get_state
    simp only
    congr 1
    rcases hempty : g.players with _ | ⟨a, t⟩
    · have hq0 : qs = [] := by
        rw [hempty] at hlen
        exact (List.length_eq_zero.mp hlen.symm)
      rw [hq0]
    · have hqs : qs.isEmpty = false := by
        rcases hq : qs with _ | ⟨b, u⟩
        · rw [hempty, hq] at hlen; simp at hlen
        · rfl
      rw [← hempty]
      have hpe : g.players.isEmpty = false := by rw [hempty]; rfl
      rw [hpe, hqs]
      simp only [Bool.false_or]
      cases hsess : (session_player g.player_sessions sess == none)
      · simp only [Bool.false_eq_true, if_false]
        have hthis := hids g.current_player
        cases hc1 : g.players[g.current_player]? with
        | none =>
            rw [hc1] at hthis
            cases hc2 : qs[g.current_player]? with
            | none => rfl
            | some b => rw [hc2] at hthis; simp at hthis
        | some a2 =>
            rw [hc1] at hthis
            cases hc2 : qs[g.current_player]? with
            | none => rw [hc2] at hthis; simp at hthis
            | some b2 =>
                rw [hc2] at hthis
                have hid2 : a2.id = b2.id :=
                  Option.some.inj (by exact hthis)
                dsimp only
                rw [hid2]
      · rfl
  · intro bpid phase bdealer bidx bp
    unfold base_player_view
    by_cases hvis : some bp.id = bpid ∨ phase = "showdown"
    · rw [if_pos (by
        rcases hvis with h | h
        · simp [h]
        · simp [h]), if_pos hvis]
    · rw [if_neg (by
        simp only [Bool.or_eq_true, beq_iff_eq]
        exact hvis), if_neg hvis]
      by_cases hl : 0 < bp.hole_cards.length
      · rw [if_pos hl]
      · rw [if_neg hl]
        have : bp.hole_cards.length = 0 := by omega
        rw [this]
        rfl

/-- C9 witness: the amended hiding facts applied to the concrete showdown
table — player 1's hidden cards appear as two placeholders to player 0, and
replacing them by other cards leaves the whole snapshot unchanged. -/
theorem snapshot_card_hiding_witness :
    (stud_player_view (some 0) 0 1 snap_p1).down_cards =
      List.replicate snap_p1.down_cards.length back_card ∧
    stud_get_state snap_game (some "sessA") =
      stud_get_state snap_game_alt (some "sessA") := by
  constructor
  · exact ((snapshot_card_hiding (some 0) 0 1 snap_p1).2.2.1 (by decide)
      (by decide)).1
  · exact (snapshot_card_hiding (some 0) 0 0 snap_p0).2.2.2.2.2.1 snap_game
      [snap_p0, snap_p1_alt] (some "sessA")
      (List.Forall₂.cons
        ⟨rfl, rfl, rfl, rfl, rfl, rfl, rfl, rfl, rfl, rfl, rfl, rfl, rfl,
          fun _ => rfl⟩
        (List.Forall₂.cons
          ⟨rfl, rfl, rfl, rfl, rfl, rfl, rfl, rfl, rfl, rfl, rfl, rfl, rfl,
            fun h => by
              rcases h with h | h
              · exact absurd h (by decide)
              · exact absurd h (by decide)⟩
          List.Forall₂.nil))

/-- C10 witness: the three preservation facts applied to the concrete
3-player scenario state (all stacks 100) after an ante, a bring-in and a
raise. -/
theorem chips_never_negative_witness :
    (∀ p ∈ (post_antes 5 scenario_s0).players, 0 ≤ p.chips) ∧
    (∀ p ∈ (post_bring_in 10 0 scenario_s0).players, 0 ≤ p.chips) ∧
    (∀ p ∈ scenario_s1.players, 0 ≤ p.chips) :=
  ⟨chips_never_negative.1 5 scenario_s0 (by decide),
   chips_never_negative.2.1 10 0 scenario_s0 (by decide),
   chips_never_negative.2.2 scenario_s0 "raise" (some 20) scenario_s1 true "OK"
     (by decide) (by decide)⟩

end Poker
